import Mathlib

/-!
Verification of the AI-SafeRoute risk-weighted routing engine (src/app.py).

The Python source works on IEEE floats; the model idealises float arithmetic
as exact real arithmetic (the standard shallow embedding for numeric code:
Python's math.tanh, math.dist and ** become Real.tanh, the Euclidean
distance and Real.rpow, and Python's round(x, 2) becomes rounding to the
nearest multiple of 1/100).  All concrete inputs used in theorems are kept
far from rounding ties, where float and real semantics agree.

Structure: all definitions first (the embedding of the source), then the
theorems settling the claims, preceded by the helper lemmas they share.
-/

namespace SafeRoute

/-- Python round(x, 2) idealised over the reals: round to the nearest
multiple of 1/100.  (src/app.py uses round(..., 2) for eta, risk and the
time multiplier.) -/
noncomputable def round2R (x : ℝ) : ℝ := (round (100 * x) : ℤ) / 100

/-- The same two-decimal rounding on exact rationals; used to evaluate the
real-valued model at concrete rational inputs. -/
def round2Q (x : ℚ) : ℚ := (round (100 * x) : ℤ) / 100

/-- time_multiplier (src/app.py lines 104-107): 1.0 before 20:00, and
round(1 + 0.2 * tanh((hour - 20) / 2), 2) from 20:00 on. -/
noncomputable def time_multiplier (hour : ℕ) : ℝ :=
  if hour < 20 then 1 else round2R (1 + 0.2 * Real.tanh (((hour : ℝ) - 20) / 2))

/-- DEFAULT_SPEED_KMPH (src/app.py line 19). -/
def DEFAULT_SPEED_KMPH : ℝ := 30

/-- MAX_SNAP_DISTANCE (src/app.py line 21). -/
def MAX_SNAP_DISTANCE : ℝ := 0.02

/-- RISK_CONFIG (src/app.py lines 25-30): the four weights actually read by
the risk model.  The Python dict also keeps unknown keys, but no code reads
them. -/
structure RiskConfig where
  crime_weight : ℝ
  lighting_weight : ℝ
  crowd_weight : ℝ
  nonlinear_exponent : ℝ

/-- The initial RISK_CONFIG values. -/
noncomputable def defaultRiskConfig : RiskConfig :=
  { crime_weight := 0.6, lighting_weight := 0.15, crowd_weight := 0.15,
    nonlinear_exponent := 1.3 }

/-- A JSON body posted to /config_risk: the subset of recognised keys it
carries (RISK_CONFIG.update merges key-by-key, last write wins). -/
structure RiskConfigPatch where
  crime_weight : Option ℝ
  lighting_weight : Option ℝ
  crowd_weight : Option ℝ
  nonlinear_exponent : Option ℝ

/-- RISK_CONFIG.update(data) (src/app.py line 253) restricted to the
recognised keys. -/
def RiskConfig.update (c : RiskConfig) (p : RiskConfigPatch) : RiskConfig :=
  { crime_weight := p.crime_weight.getD c.crime_weight,
    lighting_weight := p.lighting_weight.getD c.lighting_weight,
    crowd_weight := p.crowd_weight.getD c.crowd_weight,
    nonlinear_exponent := p.nonlinear_exponent.getD c.nonlinear_exponent }

/-- A road segment as stored in SEGMENTS_BY_ID.  Coordinates are (lat, lon)
pairs, the shape the spec's data model fixes for loaded segments. -/
structure Segment where
  id : String
  start : ℝ × ℝ
  stop : ℝ × ℝ
  crime : ℝ
  lighting : ℝ
  crowd : ℝ

/-- nonlinear(v) = v ** RISK_CONFIG["nonlinear_exponent"] (src/app.py
lines 101-102); Python float ** becomes Real.rpow. -/
noncomputable def nonlinear (cfg : RiskConfig) (v : ℝ) : ℝ :=
  v ^ cfg.nonlinear_exponent

/-- The value computed by calculate_risk (src/app.py lines 109-123) for a
given segment, hour and ambient config, before any memoisation. -/
noncomputable def calculate_risk_value (cfg : RiskConfig) (s : Segment) (hour : ℕ) : ℝ :=
  round2R ((cfg.crime_weight * nonlinear cfg s.crime
    + cfg.lighting_weight * nonlinear cfg (1 - s.lighting)
    + cfg.crowd_weight * nonlinear cfg (1 - s.crowd)) * time_multiplier hour)

/-- compute_eta (src/app.py lines 126-127). -/
noncomputable def compute_eta (distance_km speed : ℝ) : ℝ :=
  round2R (distance_km / speed * 60)

/-- Association-list lookup; models Python dict lookup (first — and, for
dict-built lists, only — binding of the key). -/
def alookup {α β : Type} [DecidableEq α] : List (α × β) → α → Option β
  | [], _ => none
  | (k, v) :: rest, a => if k = a then some v else alookup rest a

/-- Association-list store; models Python dict assignment d[k] = v: an
existing key keeps its position (insertion order), a new key is appended. -/
def aupdate {α β : Type} [DecidableEq α] : List (α × β) → α → β → List (α × β)
  | [], a, b => [(a, b)]
  | (k, v) :: rest, a, b =>
      if k = a then (a, b) :: rest else (k, v) :: aupdate rest a b

/-- One functools.lru_cache step after a call on key k produced value v:
the entry moves to the most-recently-used position and the least recently
used entries beyond maxsize are evicted. -/
def lruTouch {κ β : Type} [DecidableEq κ]
    (cache : List (κ × β)) (k : κ) (v : β) (maxsize : ℕ) : List (κ × β) :=
  (k, v) :: (cache.filter (fun p => decide (p.1 ≠ k))).take (maxsize - 1)

/-- The edge attributes build_graph attaches (src/app.py lines 152-160). -/
structure Edge where
  src : ℝ × ℝ
  dst : ℝ × ℝ
  eta : ℝ
  risk : ℝ
  weight : ℝ
  geometry : List (ℝ × ℝ)
  segment_id : String

/-- A networkx DiGraph as build_graph populates it: at most one directed
edge per (src, dst) pair, in insertion order. -/
structure Graph where
  edges : List Edge

/-- networkx add_edge on the edge list: an existing (src, dst) edge has its
attributes replaced in place, a new one is appended. -/
noncomputable def insertEdge : List Edge → Edge → List Edge
  | [], e => [e]
  | e1 :: rest, e =>
      if e1.src = e.src ∧ e1.dst = e.dst then e :: rest else e1 :: insertEdge rest e

/-- G.add_edge(start, end, ...). -/
noncomputable def Graph.addEdge (G : Graph) (e : Edge) : Graph :=
  ⟨insertEdge G.edges e⟩

/-- Append a vertex if not yet present (networkx node bookkeeping). -/
noncomputable def addNode (l : List (ℝ × ℝ)) (v : ℝ × ℝ) : List (ℝ × ℝ) :=
  if v ∈ l then l else l ++ [v]

/-- G.nodes in networkx order: vertices in order of first appearance as an
endpoint of an inserted edge. -/
noncomputable def Graph.nodes (G : Graph) : List (ℝ × ℝ) :=
  G.edges.foldl (fun l e => addNode (addNode l e.src) e.dst) []

/-- Successor list of a vertex with the search weight of each edge, in
adjacency (insertion) order: networkx G_succ[v].items() as the A* loop
consumes it. -/
noncomputable def Graph.succWeights (G : Graph) (v : ℝ × ℝ) : List ((ℝ × ℝ) × ℝ) :=
  G.edges.filterMap (fun e => if e.src = v then some (e.dst, e.weight) else none)

/-- G[u][v]: the unique u→v edge, if any. -/
noncomputable def Graph.edgeBetween (G : Graph) (u v : ℝ × ℝ) : Option Edge :=
  G.edges.find? (fun e => decide (e.src = u) && decide (e.dst = v))

/-- The whole process-wide mutable state of the engine: the dataset store,
its version stamp (DATASET_TIMESTAMP modelled as a counter), the risk
config, and the two lru_cache stores (calculate_risk's memo and
build_graph's graph cache, keyed exactly as in the source: the graph key is
(hour, alpha, dataset_ts) — note it carries no risk-config version). -/
structure ServerState where
  segments : List (String × Segment)
  distances : List (String × ℝ)
  dataset_ts : ℕ
  risk_config : RiskConfig
  risk_memo : List ((String × ℕ) × ℝ)
  graph_cache : List ((ℕ × ℝ × ℕ) × Graph)
  last_cache_clear : ℝ

/-- calculate_risk (src/app.py lines 109-123) with its lru_cache(2000):
a cache hit returns the stored value without recomputation; a miss looks
the segment up (a missing id raises KeyError, which lru_cache does not
record) and memoises the fresh score. -/
noncomputable def calculate_risk_memo (st : ServerState) (sid : String) (hour : ℕ) :
    Option ℝ × ServerState :=
  match alookup st.risk_memo (sid, hour) with
  | some v => (some v, { st with risk_memo := lruTouch st.risk_memo (sid, hour) v 2000 })
  | none =>
      match alookup st.segments sid with
      | none => (none, st)
      | some seg =>
          let v := calculate_risk_value st.risk_config seg hour
          (some v, { st with risk_memo := lruTouch st.risk_memo (sid, hour) v 2000 })

/-- The body of build_graph (src/app.py lines 143-162): fold the segment
store in insertion order, scoring each segment through the risk memo and
adding one directed start→end edge.  Returns none when a distance entry is
missing (the uncaught KeyError case). -/
noncomputable def build_graph_loop (hour : ℕ) (alpha : ℝ) :
    List (String × Segment) → Graph → ServerState → Option (Graph × ServerState)
  | [], G, st => some (G, st)
  | (sid, seg) :: rest, G, st =>
      match calculate_risk_memo st sid hour with
      | (none, _) => none
      | (some risk, st1) =>
          match alookup st.distances sid with
          | none => none
          | some d =>
              let eta := compute_eta d DEFAULT_SPEED_KMPH
              build_graph_loop hour alpha rest
                (G.addEdge
                  { src := seg.start, dst := seg.stop, eta := eta, risk := risk,
                    weight := alpha * eta + (1 - alpha) * risk,
                    geometry := [seg.start, seg.stop], segment_id := sid })
                st1

/-- A bare (cache-less) graph build from the current store and config. -/
noncomputable def build_graph_uncached (st : ServerState) (hour : ℕ) (alpha : ℝ) :
    Option (Graph × ServerState) :=
  build_graph_loop hour alpha st.segments ⟨[]⟩ st

/-- build_graph as called (src/app.py lines 141-162): the lru_cache(200)
keyed by (hour, alpha, DATASET_TIMESTAMP). -/
noncomputable def build_graph (st : ServerState) (hour : ℕ) (alpha : ℝ) :
    Option (Graph × ServerState) :=
  match alookup st.graph_cache (hour, alpha, st.dataset_ts) with
  | some G =>
      some (G,
        { st with
          graph_cache := lruTouch st.graph_cache (hour, alpha, st.dataset_ts) G 200 })
  | none =>
      match build_graph_uncached st hour alpha with
      | none => none
      | some (G, st1) =>
          some (G,
            { st1 with
              graph_cache := lruTouch st1.graph_cache (hour, alpha, st.dataset_ts) G 200 })

/-- Result of an HTTP endpoint handler: the success / error(code) envelope
of src/app.py lines 33-37. -/
inductive ApiResult where
  | ok (msg : String)
  | err (code : ℕ) (msg : String)
deriving DecidableEq

/-- config_risk (src/app.py lines 249-257): merge the posted weights into
RISK_CONFIG and clear calculate_risk's memo.  Note what it does not do: the
graph cache is left intact. -/
noncomputable def config_risk (st : ServerState) (p : RiskConfigPatch) :
    ApiResult × ServerState :=
  (ApiResult.ok "Risk config updated",
   { st with risk_config := st.risk_config.update p, risk_memo := [] })

/-- GRAPH_CACHE_TTL (src/app.py line 20). -/
def GRAPH_CACHE_TTL : ℝ := 300

/-- auto_clear_cache (src/app.py lines 132-138): the TTL backstop, driven
by wall-clock time (passed in as now). -/
noncomputable def auto_clear_cache (st : ServerState) (now : ℝ) : ServerState :=
  if GRAPH_CACHE_TTL < now - st.last_cache_clear then
    { st with risk_memo := [], graph_cache := [], last_cache_clear := now }
  else st

/-- A parsed JSON segment record as the loader sees it: which of the six
required keys are present, and the raw coordinate arrays (whose length the
schema check does not constrain). -/
structure RawSegment where
  id : Option String
  start : Option (List ℝ)
  stop : Option (List ℝ)
  crime : Option ℝ
  lighting : Option ℝ
  crowd : Option ℝ

/-- The per-record assertion of validate_dataset_schema (src/app.py
lines 44-46): all six required keys present. -/
def segment_fields_present (s : RawSegment) : Bool :=
  s.id.isSome && s.start.isSome && s.stop.isSome &&
  s.crime.isSome && s.lighting.isSome && s.crowd.isSome

/-- validate_dataset_schema over the parsed segments list. -/
def validate_dataset_schema (data : List RawSegment) : Bool :=
  data.all segment_fields_present

/-- math.dist on raw coordinate arrays: Euclidean distance, defined only
for sequences of equal length (a mismatch raises ValueError). -/
noncomputable def math_dist_list (p q : List ℝ) : Option ℝ :=
  if p.length = q.length then
    some (Real.sqrt (((p.zip q).map (fun ab => (ab.1 - ab.2) ^ 2)).sum))
  else none

/-- The loader's view of the module state: SEGMENTS_BY_ID,
SEGMENT_DISTANCES and DATASET_TIMESTAMP (as a version counter).  The spec
treats dataset loading as a collaborator of the typed SegmentStore the
engine model (ServerState) reads. -/
structure LoaderState where
  segments_by_id : List (String × RawSegment)
  segment_distances : List (String × ℝ)
  dataset_ts : ℕ

/-- The storage loop of load_dataset (src/app.py lines 59-61).  Each
record is first stored under its id and only then measured; when math.dist
raises, the exception aborts the loop with the maps partially rewritten
(false flags the aborted run, so the timestamp is not bumped). -/
noncomputable def load_dataset_loop :
    List RawSegment → LoaderState → Bool × LoaderState
  | [], st => (true, st)
  | s :: rest, st =>
      let sid := s.id.getD ""
      let st1 := { st with segments_by_id := aupdate st.segments_by_id sid s }
      match math_dist_list (s.start.getD []) (s.stop.getD []) with
      | none => (false, st1)
      | some d =>
          load_dataset_loop rest
            { st1 with segment_distances := aupdate st1.segment_distances sid d }

/-- load_dataset (src/app.py lines 48-67), given the parsed segments of
risk_data.json.  Every exception inside is caught and merely printed: a
schema failure leaves the state untouched, a mid-loop failure leaves the
partially rewritten maps in place, and in either case the caller learns
nothing.  (The getD defaults in the loop are never read: the loop only
runs after validation has established all fields are present.) -/
noncomputable def load_dataset (st : LoaderState) (data : List RawSegment) : LoaderState :=
  if validate_dataset_schema data then
    let cleared := { st with segments_by_id := [], segment_distances := [] }
    match load_dataset_loop data cleared with
    | (true, st1) => { st1 with dataset_ts := st1.dataset_ts + 1 }
    | (false, st1) => st1
  else st

/-- reload_data (src/app.py lines 71-80).  It also clears both lru caches
(modelled on ServerState).  Because load_dataset swallows every exception,
the handler's own error branch (500 "Reload failed") is unreachable and the
success envelope is always returned. -/
noncomputable def reload_data (st : LoaderState) (data : List RawSegment) :
    ApiResult × LoaderState :=
  (ApiResult.ok "Dataset reloaded", load_dataset st data)

/-- Python min(xs, key=f): the first element attaining the minimal key.
Generic in the ordered key type so concrete runs can be replayed over ℚ. -/
def argminKey {V K : Type} [LinearOrder K] (f : V → K) : List V → Option V
  | [] => none
  | v :: rest =>
      match argminKey f rest with
      | none => some v
      | some w => if f w < f v then some w else some v

/-- math.dist on (lat, lon) pairs. -/
noncomputable def distP (p q : ℝ × ℝ) : ℝ :=
  Real.sqrt ((p.1 - q.1) ^ 2 + (p.2 - q.2) ^ 2)

/-- nearest_node (src/app.py lines 165-170): min over G.nodes by planar
distance.  none models the ValueError min raises on an empty graph — the
EmptyGraphError of the spec's taxonomy.  The snap-tolerance comparison only
logs an advisory (snap_advisory below); the closest vertex is returned
regardless of how far it is. -/
noncomputable def nearest_node (G : Graph) (point : ℝ × ℝ) : Option (ℝ × ℝ) :=
  argminKey (fun n => distP n point) G.nodes

/-- The advisory logged when the snapped vertex is beyond
MAX_SNAP_DISTANCE (src/app.py lines 168-169). -/
noncomputable def snap_advisory (G : Graph) (point : ℝ × ℝ) : Bool :=
  match nearest_node G point with
  | none => false
  | some n => decide (MAX_SNAP_DISTANCE < distP n point)

/-- A frontier entry of networkx astar_path's heap: (priority, push
counter, node, cost so far, parent).  The counter makes the heap order
total and deterministic: ties in priority pop in push order. -/
structure AEntry (V K : Type) where
  f : K
  cnt : ℕ
  node : V
  dist : K
  parent : Option V

/-- heapq pop: remove the entry with the least (priority, counter).
Counters are unique, so this is exactly the heap's pop order. -/
def extractMin {V K : Type} [LinearOrder K] :
    List (AEntry V K) → Option (AEntry V K × List (AEntry V K))
  | [] => none
  | e :: rest =>
      match extractMin rest with
      | none => some (e, [])
      | some (m, rest1) =>
          if m.f < e.f ∨ (m.f = e.f ∧ m.cnt < e.cnt) then some (m, e :: rest1)
          else some (e, rest)

/-- The path-reconstruction while loop of astar_path: follow parents
through the explored map, accumulating from the target backwards.  Fueled;
the fuel only models that Python's loop would diverge on a cyclic parent
chain, which never occurs. -/
def reconstructPath {V : Type} [DecidableEq V] :
    ℕ → List (V × Option V) → Option V → List V → Option (List V)
  | _, _, none, acc => some acc
  | 0, _, some _, _ => none
  | fuel + 1, explored, some u, acc =>
      match alookup explored u with
      | none => none
      | some p => reconstructPath fuel explored p (acc ++ [u])

/-- Search outcome of the fueled astar_path transcription. -/
inductive AStarResult (V : Type) where
  | found (path : List V)
  | noPath
  | failed
  | outOfFuel
deriving DecidableEq

/-- The neighbor expansion loop of astar_path: for each successor compute
ncost; skip it when an already enqueued cost is at least as good, otherwise
(re)enqueue it, memoising the heuristic on first contact.  Threads
(queue, counter, enqueued). -/
def astarPush {V K : Type} [DecidableEq V] [LinearOrderedCommRing K]
    (heur : V → K) (cur : V) (curDist : K) :
    List (V × K) → List (AEntry V K) × ℕ × List (V × (K × K)) →
    List (AEntry V K) × ℕ × List (V × (K × K))
  | [], s => s
  | (nbr, w) :: rest, (queue, c, enqueued) =>
      let ncost := curDist + w
      match alookup enqueued nbr with
      | some (qcost, h) =>
          if qcost ≤ ncost then astarPush heur cur curDist rest (queue, c, enqueued)
          else
            astarPush heur cur curDist rest
              (queue ++ [⟨ncost + h, c, nbr, ncost, some cur⟩], c + 1,
               aupdate enqueued nbr (ncost, h))
      | none =>
          let h := heur nbr
          astarPush heur cur curDist rest
            (queue ++ [⟨ncost + h, c, nbr, ncost, some cur⟩], c + 1,
             aupdate enqueued nbr (ncost, h))

/-- The main loop of networkx.astar_path (networkx 3.x), fueled.  State:
heap, push counter, enqueued : node → (best cost, memoised heuristic),
explored : node → parent.  The failed results model KeyErrors that the
loop's invariants rule out. -/
def astarLoop {V K : Type} [DecidableEq V] [LinearOrderedCommRing K]
    (adj : V → List (V × K)) (heur : V → K) (target : V) :
    ℕ → List (AEntry V K) → ℕ → List (V × (K × K)) → List (V × Option V) →
    AStarResult V
  | 0, _, _, _, _ => .outOfFuel
  | fuel + 1, queue, c, enqueued, explored =>
      match extractMin queue with
      | none => .noPath
      | some (e, rest) =>
          if e.node = target then
            match reconstructPath (explored.length + 1) explored e.parent [e.node] with
            | none => .failed
            | some p => .found p.reverse
          else
            match alookup explored e.node with
            | some none => astarLoop adj heur target fuel rest c enqueued explored
            | some (some _) =>
                match alookup enqueued e.node with
                | none => .failed
                | some (qcost, _) =>
                    if qcost < e.dist then
                      astarLoop adj heur target fuel rest c enqueued explored
                    else
                      match astarPush heur e.node e.dist (adj e.node) (rest, c, enqueued) with
                      | (queue1, c1, enqueued1) =>
                          astarLoop adj heur target fuel queue1 c1 enqueued1
                            (aupdate explored e.node e.parent)
            | none =>
                match astarPush heur e.node e.dist (adj e.node) (rest, c, enqueued) with
                | (queue1, c1, enqueued1) =>
                    astarLoop adj heur target fuel queue1 c1 enqueued1
                      (aupdate explored e.node e.parent)

/-- nx.astar_path(G, source, target, heuristic, weight="weight"), fueled:
initial heap [(0, 0, source, 0, None)], empty enqueued and explored. -/
def astar_path {V K : Type} [DecidableEq V] [LinearOrderedCommRing K]
    (adj : V → List (V × K)) (heur : V → K) (source target : V) (fuel : ℕ) :
    AStarResult V :=
  astarLoop adj heur target fuel [⟨0, 0, source, 0, none⟩] 1 [] []

/-- The typed counterparts of compute_route's error strings. -/
inductive RouteErr where
  | originTooFar
  | destTooFar
  | noRoute
  | routingFailure
deriving DecidableEq

/-- The dict compute_route returns.  geometry is absent (none) exactly on
the single-vertex result, which instead carries the advisory warning. -/
structure RouteResult where
  path : List (ℝ × ℝ)
  eta : ℝ
  risk : ℝ
  confidence : ℝ
  geometry : Option (List (List (ℝ × ℝ)))
  warning : Option String

/-- Python truthiness of a tuple, modelled on its element list: a tuple is
falsy iff it is empty. -/
def pyTruthy (l : List ℝ) : Bool := !l.isEmpty

/-- The aggregation loop of compute_route (src/app.py lines 212-218):
sum eta and risk and collect geometry over consecutive path edges; none
models the KeyError of a missing edge (it cannot occur on returned
paths). -/
noncomputable def sumPathAttrs (G : Graph) :
    List (ℝ × ℝ) → Option (ℝ × ℝ × List (List (ℝ × ℝ)))
  | [] => some (0, 0, [])
  | [_] => some (0, 0, [])
  | u :: v :: rest =>
      match G.edgeBetween u v with
      | none => none
      | some e =>
          match sumPathAttrs G (v :: rest) with
          | none => none
          | some (eta, risk, geoms) =>
              some (e.eta + eta, e.risk + risk, e.geometry :: geoms)

/-- Search fuel budget used by the model's compute_route: any bound large
enough for the concrete graphs handled in the theorems. -/
def graphFuel (G : Graph) : ℕ :=
  (G.edges.length + 2) * (G.edges.length + 2) + 1

/-- compute_route (src/app.py lines 175-232).  The outer Option is crash
semantics: none models an exception that escapes compute_route entirely
(KeyError from a desynchronised store inside build_graph, or min() on an
empty graph inside nearest_node — both are called outside the try block).
The Except layer carries the (None, message) returns. -/
noncomputable def compute_route (st : ServerState) (now : ℝ)
    (origin destination : ℝ × ℝ) (hour : ℕ) (alpha : ℝ) :
    Option (Except RouteErr RouteResult × ServerState) :=
  let st0 := auto_clear_cache st now
  match build_graph st0 hour alpha with
  | none => none
  | some (G, st1) =>
      match nearest_node G origin with
      | none => none
      | some origin_node =>
          match nearest_node G destination with
          | none => none
          | some dest_node =>
              if pyTruthy [origin_node.1, origin_node.2] = false then
                some (.error .originTooFar, st1)
              else if pyTruthy [dest_node.1, dest_node.2] = false then
                some (.error .destTooFar, st1)
              else
                match astar_path G.succWeights (fun v => distP v dest_node)
                    origin_node dest_node (graphFuel G) with
                | .noPath => some (.error .noRoute, st1)
                | .failed => some (.error .routingFailure, st1)
                | .outOfFuel => some (.error .routingFailure, st1)
                | .found path =>
                    if path.length = 1 then
                      some (.ok
                        { path := path, eta := 0, risk := 0, confidence := 1,
                          geometry := none,
                          warning := some "Origin and destination are extremely close" },
                        st1)
                    else
                      match sumPathAttrs G path with
                      | none => none
                      | some (eta, risk, geoms) =>
                          let segments_count : ℕ := max (path.length - 1) 1
                          let normalized_risk := round2R (risk / (segments_count : ℝ))
                          let conf := round2R (1 / (1 + normalized_risk))
                          some (.ok
                            { path := path, eta := round2R eta,
                              risk := normalized_risk, confidence := conf,
                              geometry := some geoms, warning := none },
                            st1)

/-- Per-client request log (REQUESTS, src/app.py line 235). -/
structure RateState where
  requests : List (String × List ℝ)

/-- rate_limit (src/app.py lines 237-246) with the default limit 30 and
window 60 the handler uses. -/
noncomputable def rate_limit (rs : RateState) (ip : String) (now : ℝ) :
    Bool × RateState :=
  let past := (alookup rs.requests ip).getD []
  let recent := past.filter (fun t => decide (now - t < 60))
  if 30 ≤ recent.length then
    (false, { requests := aupdate rs.requests ip recent })
  else
    (true, { requests := aupdate rs.requests ip (recent ++ [now]) })

/-- A /get_routes request body: each field as present or absent in the
JSON (data.get defaults are applied in the handler). -/
structure RouteRequest where
  origin : Option (List ℝ)
  destination : Option (List ℝ)
  hour : Option ℤ
  alpha : Option ℝ
  rtype : Option String
  speed : Option ℝ

/-- valid_coords (src/app.py lines 83-92) on a parsed JSON value. -/
noncomputable def valid_coords : Option (List ℝ) → Bool
  | some [lat, lon] =>
      decide (-90 ≤ lat ∧ lat ≤ 90 ∧ -180 ≤ lon ∧ lon ≤ 180)
  | _ => false

/-- valid_hour (src/app.py lines 94-95). -/
def valid_hour (h : ℤ) : Bool := decide (0 ≤ h ∧ h ≤ 23)

/-- valid_alpha (src/app.py lines 97-98). -/
noncomputable def valid_alpha (a : ℝ) : Bool := decide (0 ≤ a ∧ a ≤ 1)

/-- The response envelope of /get_routes: success payload (route,
strategy, time_multiplier) or an error with its HTTP code. -/
inductive RoutesResponse where
  | ok (route : RouteResult) (strategy : String) (tm : ℝ)
  | err (code : ℕ) (msg : String)

/-- get_routes (src/app.py lines 264-317).  The accepted speed field is
bound (as in the source) and then never used: edge ETAs always come from
DEFAULT_SPEED_KMPH inside build_graph.  none models a crash escaping the
handler. -/
noncomputable def get_routes (st : ServerState) (rs : RateState) (now : ℝ)
    (ip : String) (req : RouteRequest) :
    Option (RoutesResponse × ServerState × RateState) :=
  match rate_limit rs ip now with
  | (false, rs1) => some (.err 429 "Too many requests", st, rs1)
  | (true, rs1) =>
      let hour := req.hour.getD 22
      let alpha := req.alpha.getD 0.5
      let route_type := req.rtype.getD "balanced"
      let _speed := req.speed.getD DEFAULT_SPEED_KMPH
      if route_type ≠ "shortest" ∧ route_type ≠ "safest" ∧ route_type ≠ "balanced" then
        some (.err 400 "Invalid type", st, rs1)
      else if valid_coords req.origin = false then
        some (.err 400 "Invalid origin", st, rs1)
      else if valid_coords req.destination = false then
        some (.err 400 "Invalid destination", st, rs1)
      else if req.origin = req.destination then
        some (.err 400 "Origin and destination cannot match", st, rs1)
      else if valid_hour hour = false then
        some (.err 400 "Invalid hour", st, rs1)
      else if valid_alpha alpha = false then
        some (.err 400 "Invalid alpha", st, rs1)
      else
        let alpha2 := if route_type = "shortest" then (1 : ℝ)
          else if route_type = "safest" then (0 : ℝ) else alpha
        match req.origin, req.destination with
        | some [olat, olon], some [dlat, dlon] =>
            match compute_route st now (olat, olon) (dlat, dlon) hour.toNat alpha2 with
            | none => none
            | some (.error .originTooFar, st1) =>
                some (.err 404 "Origin too far from known roads", st1, rs1)
            | some (.error .destTooFar, st1) =>
                some (.err 404 "Destination too far from known roads", st1, rs1)
            | some (.error .noRoute, st1) =>
                some (.err 404 "No route available", st1, rs1)
            | some (.error .routingFailure, st1) =>
                some (.err 404 "Routing failure", st1, rs1)
            | some (.ok route, st1) =>
                some (.ok route route_type (time_multiplier hour.toNat), st1, rs1)
        | _, _ => none

/-- Concrete one-segment fixture: s0 runs from (0,0) to (1,0) with
crime = lighting = crowd = 1. -/
noncomputable def seg0 : Segment :=
  { id := "s0", start := (0, 0), stop := (1, 0), crime := 1, lighting := 1, crowd := 1 }

/-- Engine state holding exactly s0 with fresh caches (the state right
after a clean dataset load). -/
noncomputable def engineState0 : ServerState :=
  { segments := [("s0", seg0)], distances := [("s0", 1)], dataset_ts := 1,
    risk_config := defaultRiskConfig, risk_memo := [], graph_cache := [],
    last_cache_clear := 0 }

/-- The /config_risk body posting crime_weight = 0.4. -/
noncomputable def patch04 : RiskConfigPatch := ⟨some 0.4, none, none, none⟩

/-- A well-formed raw dataset record g1: (0,0) → (1,0). -/
noncomputable def rawGood : RawSegment :=
  { id := some "g1", start := some [0, 0], stop := some [1, 0],
    crime := some 0, lighting := some 1, crowd := some 1 }

/-- A raw record missing the required crime field. -/
noncomputable def rawMissingCrime : RawSegment :=
  { id := some "m1", start := some [0, 0], stop := some [1, 0],
    crime := none, lighting := some 1, crowd := some 1 }

/-- A raw record with mismatched endpoint array lengths: it passes the
schema check (all six keys present) but math.dist raises on it. -/
noncomputable def rawBadCoords : RawSegment :=
  { id := some "b1", start := some [0, 0], stop := some [1],
    crime := some 0, lighting := some 1, crowd := some 1 }

/-- The previously loaded record the loader fixture holds. -/
noncomputable def rawS0 : RawSegment :=
  { id := some "s0", start := some [0, 0], stop := some [1, 0],
    crime := some 1, lighting := some 1, crowd := some 1 }

/-- Loader state with one good previously loaded segment s0. -/
noncomputable def loaderState0 : LoaderState :=
  { segments_by_id := [("s0", rawS0)], segment_distances := [("s0", 1)],
    dataset_ts := 1 }

/-- A one-edge graph used as a concrete NodeLocator fixture. -/
noncomputable def edgeW : Edge :=
  { src := (0, 0), dst := (1, 0), eta := 2, risk := 0, weight := 1,
    geometry := [(0, 0), (1, 0)], segment_id := "w" }

/-- The graph with vertices (0,0) and (1,0). -/
noncomputable def graphW : Graph := ⟨[edgeW]⟩

/-- The edge build_graph derives from seg0 at hour 10, alpha 1/2. -/
noncomputable def edge0 : Edge :=
  { src := (0, 0), dst := (1, 0), eta := compute_eta 1 DEFAULT_SPEED_KMPH,
    risk := calculate_risk_value defaultRiskConfig seg0 10,
    weight := (1 / 2) * compute_eta 1 DEFAULT_SPEED_KMPH
      + (1 - 1 / 2) * calculate_risk_value defaultRiskConfig seg0 10,
    geometry := [(0, 0), (1, 0)], segment_id := "s0" }

/-- The graph built from engineState0 at hour 10, alpha 1/2. -/
noncomputable def graph0 : Graph := ⟨[edge0]⟩

/-- engineState0 after the risk memo has recorded seg0's score. -/
noncomputable def state1u : ServerState :=
  { engineState0 with
    risk_memo := [(("s0", 10), calculate_risk_value defaultRiskConfig seg0 10)] }

/-- engineState0 after the first (hour 10, alpha 1/2) build: risk memo and
graph cache populated. -/
noncomputable def state1 : ServerState :=
  { state1u with graph_cache := [((10, 1 / 2, 1), graph0)] }

/-- Segment a of the duplicate-endpoints store: risk-free attributes. -/
noncomputable def segA : Segment :=
  { id := "a", start := (0, 0), stop := (1, 0), crime := 0, lighting := 1, crowd := 1 }

/-- Segment b: same endpoints as a, maximal crime. -/
noncomputable def segB : Segment :=
  { id := "b", start := (0, 0), stop := (1, 0), crime := 1, lighting := 1, crowd := 1 }

/-- A store holding two distinct segments with identical endpoints. -/
noncomputable def engineStateDup : ServerState :=
  { segments := [("a", segA), ("b", segB)], distances := [("a", 1), ("b", 1)],
    dataset_ts := 1, risk_config := defaultRiskConfig, risk_memo := [],
    graph_cache := [], last_cache_clear := 0 }

/-- The edge build_graph would derive from one store entry, given the
state whose distances, config and memo it reads. -/
noncomputable def segEdge (st : ServerState) (hour : ℕ) (alpha : ℝ)
    (p : String × Segment) : Edge :=
  { src := p.2.start, dst := p.2.stop,
    eta := compute_eta ((alookup st.distances p.1).getD 0) DEFAULT_SPEED_KMPH,
    risk := calculate_risk_value st.risk_config p.2 hour,
    weight := alpha * compute_eta ((alookup st.distances p.1).getD 0) DEFAULT_SPEED_KMPH
      + (1 - alpha) * calculate_risk_value st.risk_config p.2 hour,
    geometry := [p.2.start, p.2.stop], segment_id := p.1 }

/-- Two edges address different (src, dst) slots of the digraph. -/
def edgeKeyNe (x y : Edge) : Prop := ¬(x.src = y.src ∧ x.dst = y.dst)

/-- Cast a rational point into the real plane. -/
def vmapQ (p : ℚ × ℚ) : ℝ × ℝ := ((p.1 : ℝ), (p.2 : ℝ))

/-- A rational mirror of a built edge; concrete searches over the real
graph are replayed as exact rational computations through it. -/
structure EdgeQ where
  src : ℚ × ℚ
  dst : ℚ × ℚ
  eta : ℚ
  risk : ℚ
  weight : ℚ
  segment_id : String
deriving DecidableEq

/-- The real edge a rational edge mirrors. -/
noncomputable def castEdge (e : EdgeQ) : Edge :=
  { src := vmapQ e.src, dst := vmapQ e.dst, eta := (e.eta : ℝ),
    risk := (e.risk : ℝ), weight := (e.weight : ℝ),
    geometry := [vmapQ e.src, vmapQ e.dst], segment_id := e.segment_id }

/-- The real graph a rational edge list mirrors. -/
noncomputable def castGraph (l : List EdgeQ) : Graph := ⟨l.map castEdge⟩

/-- Rational counterpart of Graph.succWeights. -/
def succWeightsQ (l : List EdgeQ) (v : ℚ × ℚ) : List ((ℚ × ℚ) × ℚ) :=
  l.filterMap (fun e => if e.src = v then some (e.dst, e.weight) else none)

/-- Rational counterpart of Graph.edgeBetween. -/
def edgeBetweenQ (l : List EdgeQ) (u v : ℚ × ℚ) : Option EdgeQ :=
  l.find? (fun e => decide (e.src = u) && decide (e.dst = v))

/-- Rational counterpart of sumPathAttrs. -/
def sumPathAttrsQ (l : List EdgeQ) :
    List (ℚ × ℚ) → Option (ℚ × ℚ × List (List (ℚ × ℚ)))
  | [] => some (0, 0, [])
  | [_] => some (0, 0, [])
  | u :: v :: rest =>
      match edgeBetweenQ l u v with
      | none => none
      | some e =>
          match sumPathAttrsQ l (v :: rest) with
          | none => none
          | some (eta, risk, geoms) =>
              some (e.eta + eta, e.risk + risk, [e.src, e.dst] :: geoms)

/-- Mapping of a heap entry through a vertex map vm and a cost embedding f. -/
def mapEntryG {V1 V2 K1 K2 : Type} (vm : V1 → V2) (f : K1 → K2)
    (e : AEntry V1 K1) : AEntry V2 K2 :=
  ⟨f e.f, e.cnt, vm e.node, f e.dist, e.parent.map vm⟩

/-- Mapping of an enqueued binding through vm and f. -/
def mapEnqEG {V1 V2 K1 K2 : Type} (vm : V1 → V2) (f : K1 → K2)
    (p : V1 × (K1 × K1)) : V2 × (K2 × K2) :=
  (vm p.1, (f p.2.1, f p.2.2))

/-- Mapping of an explored binding through vm. -/
def mapExpEG {V1 V2 : Type} (vm : V1 → V2) (p : V1 × Option V1) :
    V2 × Option V2 :=
  (vm p.1, p.2.map vm)

/-- Mapping of a search result through vm. -/
def mapResultG {V1 V2 : Type} (vm : V1 → V2) :
    AStarResult V1 → AStarResult V2
  | .found p => .found (p.map vm)
  | .noPath => .noPath
  | .failed => .failed
  | .outOfFuel => .outOfFuel

/-- The cost embedding of a scaled integer replay: z maps to z / lam. -/
noncomputable def wdivZ (lam : ℝ) (z : ℤ) : ℝ := (z : ℝ) / lam

/-- The vertex embedding of a scaled integer replay. -/
noncomputable def vdivZ (lam : ℝ) (p : ℤ × ℤ) : ℝ × ℝ :=
  ((p.1 : ℝ) / lam, (p.2 : ℝ) / lam)

/-- The exact heuristic of the scaled colinear fixtures: planar distance to
the target for points on the target's horizontal line. -/
def heurZx (g v : ℤ × ℤ) : ℤ := |v.1 - g.1|

/-- Successor list with weights of a scaled integer edge list. -/
def succWeightsZ (l : List ((ℤ × ℤ) × (ℤ × ℤ) × ℤ)) (v : ℤ × ℤ) :
    List ((ℤ × ℤ) × ℤ) :=
  l.filterMap (fun e => if e.1 = v then some e.2 else none)

/-- Fixture-1 store: four colinear segments giving a cheap-eta risky path
(0,0)→(0.9,0)→(1,0) and a distinct cheap-risk detour over (-5,0). -/
noncomputable def fix1Segments : List (String × Segment) :=
  [("u1", ⟨"u1", (0, 0), (-5, 0), 0, 0, 1⟩),
   ("u2", ⟨"u2", (-5, 0), (1, 0), 0, 0, 1⟩),
   ("u3", ⟨"u3", (0, 0), (0.9, 0), 1, 0, 0⟩),
   ("u4", ⟨"u4", (0.9, 0), (1, 0), 0, 1, 1⟩)]

/-- Fixture-1 engine state. -/
noncomputable def fix1State : ServerState :=
  { segments := fix1Segments,
    distances := [("u1", 5), ("u2", 6), ("u3", 0.9), ("u4", 0.1)],
    dataset_ts := 1, risk_config := defaultRiskConfig, risk_memo := [],
    graph_cache := [], last_cache_clear := 0 }

/-- The rational mirror of the fixture-1 graph at alpha = 0 (weights are
the risks). -/
def fix1Q : List EdgeQ :=
  [⟨(0, 0), (-5, 0), 10, 0.15, 0.15, "u1"⟩,
   ⟨(-5, 0), (1, 0), 12, 0.15, 0.15, "u2"⟩,
   ⟨(0, 0), (0.9, 0), 1.8, 0.9, 0.9, "u3"⟩,
   ⟨(0.9, 0), (1, 0), 0.2, 0, 0, "u4"⟩]

/-- Fixture-1 scaled to integers (scale 100): src, dst and weight of each
edge at alpha = 0 (weights are 100 times the risks). -/
def fix1Z : List ((ℤ × ℤ) × (ℤ × ℤ) × ℤ) :=
  [((0, 0), (-500, 0), 15),
   ((-500, 0), (100, 0), 15),
   ((0, 0), (90, 0), 90),
   ((90, 0), (100, 0), 0)]

/-- The fixture-1 vertex universe, scaled to integers. -/
def fix1vertsZ : List (ℤ × ℤ) := [(0, 0), (-500, 0), (90, 0), (100, 0)]

/-- Fixture-2 store: a zero-eta chain from (0.006,0) to the origin that
first climbs away from the target, and a two-segment risk-free shortcut
with positive eta. -/
noncomputable def fix2Segments : List (String × Segment) :=
  [("t1", ⟨"t1", (0.006, 0), (0.00825, 0), 1, 1, 1⟩),
   ("t2", ⟨"t2", (0.00825, 0), (0.0105, 0), 1, 1, 1⟩),
   ("t3", ⟨"t3", (0.0105, 0), (0.01275, 0), 1, 1, 1⟩),
   ("t4", ⟨"t4", (0.01275, 0), (0.010625, 0), 1, 1, 1⟩),
   ("t5", ⟨"t5", (0.010625, 0), (0.0085, 0), 1, 1, 1⟩),
   ("t6", ⟨"t6", (0.0085, 0), (0.006375, 0), 1, 1, 1⟩),
   ("t7", ⟨"t7", (0.006375, 0), (0.00425, 0), 1, 1, 1⟩),
   ("t8", ⟨"t8", (0.00425, 0), (0.002125, 0), 1, 1, 1⟩),
   ("t9", ⟨"t9", (0.002125, 0), (0, 0), 1, 1, 1⟩),
   ("t10", ⟨"t10", (0.006, 0), (0.00249, 0), 0, 1, 1⟩),
   ("t11", ⟨"t11", (0.00249, 0), (0, 0), 0, 1, 1⟩)]

/-- Fixture-2 engine state. -/
noncomputable def fix2State : ServerState :=
  { segments := fix2Segments,
    distances := [("t1", 0.00225), ("t2", 0.00225), ("t3", 0.00225),
      ("t4", 0.002125), ("t5", 0.002125), ("t6", 0.002125), ("t7", 0.002125),
      ("t8", 0.002125), ("t9", 0.002125), ("t10", 0.00351), ("t11", 0.00249)],
    dataset_ts := 1, risk_config := defaultRiskConfig, risk_memo := [],
    graph_cache := [], last_cache_clear := 0 }

/-- The rational mirror of the fixture-2 graph at alpha = 1 (weights are
the etas; each chain eta rounds to 0). -/
def fix2Q : List EdgeQ :=
  [⟨(0.006, 0), (0.00825, 0), 0, 0.6, 0, "t1"⟩,
   ⟨(0.00825, 0), (0.0105, 0), 0, 0.6, 0, "t2"⟩,
   ⟨(0.0105, 0), (0.01275, 0), 0, 0.6, 0, "t3"⟩,
   ⟨(0.01275, 0), (0.010625, 0), 0, 0.6, 0, "t4"⟩,
   ⟨(0.010625, 0), (0.0085, 0), 0, 0.6, 0, "t5"⟩,
   ⟨(0.0085, 0), (0.006375, 0), 0, 0.6, 0, "t6"⟩,
   ⟨(0.006375, 0), (0.00425, 0), 0, 0.6, 0, "t7"⟩,
   ⟨(0.00425, 0), (0.002125, 0), 0, 0.6, 0, "t8"⟩,
   ⟨(0.002125, 0), (0, 0), 0, 0.6, 0, "t9"⟩,
   ⟨(0.006, 0), (0.00249, 0), 0.01, 0, 0.01, "t10"⟩,
   ⟨(0.00249, 0), (0, 0), 0, 0, 0, "t11"⟩]

/-- Fixture-2 scaled to integers (scale 800000): src, dst and weight of
each edge at alpha = 1 (weights are 800000 times the etas). -/
def fix2Z : List ((ℤ × ℤ) × (ℤ × ℤ) × ℤ) :=
  [((4800, 0), (6600, 0), 0),
   ((6600, 0), (8400, 0), 0),
   ((8400, 0), (10200, 0), 0),
   ((10200, 0), (8500, 0), 0),
   ((8500, 0), (6800, 0), 0),
   ((6800, 0), (5100, 0), 0),
   ((5100, 0), (3400, 0), 0),
   ((3400, 0), (1700, 0), 0),
   ((1700, 0), (0, 0), 0),
   ((4800, 0), (1992, 0), 8000),
   ((1992, 0), (0, 0), 0)]

/-- The fixture-2 vertex universe, scaled to integers. -/
def fix2vertsZ : List (ℤ × ℤ) :=
  [(4800, 0), (6600, 0), (8400, 0), (10200, 0), (8500, 0),
   (6800, 0), (5100, 0), (3400, 0), (1700, 0), (1992, 0),
   (0, 0)]

/-- The zero-eta chain path of fixture 2. -/
def fix2chainQ : List (ℚ × ℚ) :=
  [(0.006, 0), (0.00825, 0), (0.0105, 0), (0.01275, 0), (0.010625, 0),
   (0.0085, 0), (0.006375, 0), (0.00425, 0), (0.002125, 0), (0, 0)]

end SafeRoute

namespace SafeRoute

/-- Two-decimal rounding commutes with the cast of an exact rational. -/
theorem round2R_ratCast (q : ℚ) : round2R (q : ℝ) = ((round2Q q : ℚ) : ℝ) := by
  unfold round2R round2Q
  have h : (100 : ℝ) * (q : ℝ) = ((100 * q : ℚ) : ℝ) := by push_cast; ring
  rw [h, Rat.round_cast]
  push_cast
  ring

/-- tanh written through the exponential: tanh x = 1 - 2 / (exp (2x) + 1). -/
theorem tanh_repr (x : ℝ) : Real.tanh x = 1 - 2 / (Real.exp (2 * x) + 1) := by
  have hx : (0 : ℝ) < Real.exp x := Real.exp_pos x
  have h2 : Real.exp (2 * x) = Real.exp x * Real.exp x := by
    rw [two_mul, Real.exp_add]
  rw [Real.tanh_eq_sinh_div_cosh, Real.sinh_eq, Real.cosh_eq, Real.exp_neg, h2]
  have hne : Real.exp x ≠ 0 := ne_of_gt hx
  have hden : (0 : ℝ) < Real.exp x * Real.exp x + 1 := by positivity
  have hsum : Real.exp x + (Real.exp x)⁻¹ ≠ 0 := by positivity
  field_simp
  ring

/-- tanh is monotone. -/
theorem tanh_mono {x y : ℝ} (h : x ≤ y) : Real.tanh x ≤ Real.tanh y := by
  rw [tanh_repr, tanh_repr]
  have hx : (0 : ℝ) < Real.exp (2 * x) + 1 := by positivity
  have hy : (0 : ℝ) < Real.exp (2 * y) + 1 := by positivity
  have hle : Real.exp (2 * x) + 1 ≤ Real.exp (2 * y) + 1 := by
    have := Real.exp_le_exp.mpr (by linarith : 2 * x ≤ 2 * y)
    linarith
  have : 2 / (Real.exp (2 * y) + 1) ≤ 2 / (Real.exp (2 * x) + 1) := by
    gcongr
  linarith

/-- tanh is nonnegative on nonnegative inputs. -/
theorem tanh_nonneg_of_nonneg {x : ℝ} (h : 0 ≤ x) : 0 ≤ Real.tanh x := by
  have := tanh_mono h
  rwa [Real.tanh_zero] at this

/-- tanh is strictly below one. -/
theorem tanh_lt_one_real (x : ℝ) : Real.tanh x < 1 := by
  rw [tanh_repr]
  have hx : (0 : ℝ) < Real.exp (2 * x) + 1 := by positivity
  have : 0 < 2 / (Real.exp (2 * x) + 1) := by positivity
  linarith

/-- Quantitative lower bound used at 21:00: tanh (1/2) is at least 0.025. -/
theorem tanh_half_lb : (0.025 : ℝ) ≤ Real.tanh (1 / 2) := by
  rw [tanh_repr]
  have h1 : (2 : ℝ) * (1 / 2) = 1 := by norm_num
  rw [h1]
  have he : (2.7182818283 : ℝ) < Real.exp 1 := Real.exp_one_gt_d9
  have hpos : (0 : ℝ) < Real.exp 1 + 1 := by positivity
  have h37 : (3.7 : ℝ) ≤ Real.exp 1 + 1 := by linarith
  have : 2 / (Real.exp 1 + 1) ≤ 2 / (3.7 : ℝ) := by gcongr
  have h27 : 2 / (3.7 : ℝ) ≤ 0.95 := by norm_num
  linarith

/-- Lower bound through two-decimal rounding. -/
theorem round2R_ge {z : ℤ} {x : ℝ} (h : (z : ℝ) ≤ 100 * x + 1 / 2) :
    (z : ℝ) / 100 ≤ round2R x := by
  unfold round2R
  have h1 : z ≤ round (100 * x) := by
    rw [round_eq]
    exact Int.le_floor.mpr (by exact_mod_cast h)
  have h2 : (z : ℝ) ≤ ((round (100 * x) : ℤ) : ℝ) := by exact_mod_cast h1
  linarith

/-- Upper bound through two-decimal rounding. -/
theorem round2R_le {z : ℤ} {x : ℝ} (h : 100 * x + 1 / 2 < (z : ℝ) + 1) :
    round2R x ≤ (z : ℝ) / 100 := by
  unfold round2R
  have h1 : round (100 * x) < z + 1 := by
    rw [round_eq]
    exact Int.floor_lt.mpr (by push_cast; linarith)
  have h2 : round (100 * x) ≤ z := by omega
  have h3 : ((round (100 * x) : ℤ) : ℝ) ≤ (z : ℝ) := by exact_mod_cast h2
  linarith

/-- Two-decimal rounding is monotone. -/
theorem round2R_mono {x y : ℝ} (h : x ≤ y) : round2R x ≤ round2R y := by
  unfold round2R
  have h1 : round (100 * x) ≤ round (100 * y) := by
    rw [round_eq, round_eq]
    exact Int.floor_mono (by linarith)
  have h2 : ((round (100 * x) : ℤ) : ℝ) ≤ ((round (100 * y) : ℤ) : ℝ) := by
    exact_mod_cast h1
  linarith

/-- round2R fixes 1. -/
theorem round2R_one : round2R 1 = 1 := by
  unfold round2R
  have h : (100 : ℝ) * 1 = ((100 : ℤ) : ℝ) := by norm_num
  rw [h, round_intCast]
  norm_num

/-- C4 counterexample: at hour 20 the multiplier is exactly 1.0, which is
not in the half-open interval (1.0, 1.2] the claim asserts for hours in
[20,23]. -/
theorem C4_counterexample : time_multiplier 20 = 1 ∧ ¬ (1 < time_multiplier 20) := by
  have h : time_multiplier 20 = 1 := by
    simp only [time_multiplier]
    rw [if_neg (by omega)]
    have h0 : ((((20 : ℕ) : ℝ)) - 20) / 2 = 0 := by norm_num
    rw [h0, Real.tanh_zero]
    norm_num [round2R_one]
  exact ⟨h, by rw [h]; exact lt_irrefl 1⟩

/-- C4 (amended): timeMultiplier is 1.0 on hours 0..19; on hours 20..23 it
equals round(1 + 0.2 * tanh((h - 20)/2), 2), is non-decreasing, and lies in
the closed interval [1.0, 1.2] (it equals 1.0 at hour 20 and is strictly
above 1.0 from hour 21 on). -/
theorem C4_time_multiplier_amended (h : ℕ) (hle : h ≤ 23) :
    (h < 20 → time_multiplier h = 1) ∧
    (20 ≤ h →
      time_multiplier h = round2R (1 + 0.2 * Real.tanh (((h : ℝ) - 20) / 2)) ∧
      1 ≤ time_multiplier h ∧ time_multiplier h ≤ 1.2 ∧
      (21 ≤ h → 1 < time_multiplier h)) ∧
    (∀ h2, 20 ≤ h → h ≤ h2 → h2 ≤ 23 → time_multiplier h ≤ time_multiplier h2) := by
  refine ⟨fun hlt => by simp [time_multiplier, hlt], fun h20 => ?_, fun h2 h20 hh2 _ => ?_⟩
  · have heq : time_multiplier h = round2R (1 + 0.2 * Real.tanh (((h : ℝ) - 20) / 2)) := by
      simp only [time_multiplier]
      rw [if_neg (by omega)]
    have ht0 : (0 : ℝ) ≤ ((h : ℝ) - 20) / 2 := by
      have : (20 : ℝ) ≤ (h : ℝ) := by exact_mod_cast h20
      linarith
    have htanh0 : 0 ≤ Real.tanh (((h : ℝ) - 20) / 2) := tanh_nonneg_of_nonneg ht0
    have htanh1 : Real.tanh (((h : ℝ) - 20) / 2) < 1 := tanh_lt_one_real _
    refine ⟨heq, ?_, ?_, fun h21 => ?_⟩
    · rw [heq]
      have := round2R_ge (z := 100)
        (x := 1 + 0.2 * Real.tanh (((h : ℝ) - 20) / 2)) (by push_cast; linarith)
      calc (1 : ℝ) = ((100 : ℤ) : ℝ) / 100 := by norm_num
        _ ≤ _ := this
    · rw [heq]
      have := round2R_le (z := 120)
        (x := 1 + 0.2 * Real.tanh (((h : ℝ) - 20) / 2)) (by push_cast; linarith)
      calc round2R (1 + 0.2 * Real.tanh (((h : ℝ) - 20) / 2))
          ≤ ((120 : ℤ) : ℝ) / 100 := this
        _ = 1.2 := by norm_num
    · rw [heq]
      have hhalf : (1 / 2 : ℝ) ≤ ((h : ℝ) - 20) / 2 := by
        have : (21 : ℝ) ≤ (h : ℝ) := by exact_mod_cast h21
        linarith
      have := tanh_half_lb.trans (tanh_mono hhalf)
      have hge := round2R_ge (z := 101)
        (x := 1 + 0.2 * Real.tanh (((h : ℝ) - 20) / 2)) (by push_cast; linarith)
      calc (1 : ℝ) < ((101 : ℤ) : ℝ) / 100 := by norm_num
        _ ≤ _ := hge
  · have h202 : 20 ≤ h2 := le_trans h20 hh2
    have heq : time_multiplier h = round2R (1 + 0.2 * Real.tanh (((h : ℝ) - 20) / 2)) := by
      simp only [time_multiplier]; rw [if_neg (by omega)]
    have heq2 : time_multiplier h2 = round2R (1 + 0.2 * Real.tanh (((h2 : ℝ) - 20) / 2)) := by
      simp only [time_multiplier]; rw [if_neg (by omega)]
    rw [heq, heq2]
    apply round2R_mono
    have hcast : (h : ℝ) ≤ (h2 : ℝ) := by exact_mod_cast hh2
    have := tanh_mono (by linarith : ((h : ℝ) - 20) / 2 ≤ ((h2 : ℝ) - 20) / 2)
    linarith

/-- Witness for C4: the amended theorem applied at concrete hours. -/
theorem C4_witness :
    time_multiplier 10 = 1 ∧ 1 ≤ time_multiplier 22 ∧
    time_multiplier 22 ≤ time_multiplier 23 ∧ 1 < time_multiplier 21 :=
  ⟨(C4_time_multiplier_amended 10 (by decide)).1 (by decide),
   ((C4_time_multiplier_amended 22 (by decide)).2.1 (by decide)).2.1,
   (C4_time_multiplier_amended 22 (by decide)).2.2 23 (by decide) (by decide) (by decide),
   ((C4_time_multiplier_amended 21 (by decide)).2.1 (by decide)).2.2.2 (by decide)⟩

/-- A fresh lru cache entry is found by the next lookup. -/
theorem alookup_lruTouch_self {κ β : Type} [DecidableEq κ]
    (c : List (κ × β)) (k : κ) (v : β) (n : ℕ) :
    alookup (lruTouch c k v n) k = some v := by
  simp [lruTouch, alookup]

/-- Evaluate round2Q at a rational literal from floor bounds. -/
theorem round2Q_eval (q : ℚ) (z : ℤ) (h1 : (z : ℚ) ≤ 100 * q + 1 / 2)
    (h2 : 100 * q + 1 / 2 < z + 1) : round2Q q = (z : ℚ) / 100 := by
  unfold round2Q
  rw [round_eq]
  have hz : ⌊(100 : ℚ) * q + 1 / 2⌋ = z := by
    rw [Int.floor_eq_iff]
    constructor
    · exact h1
    · exact_mod_cast h2
  rw [hz]

/-- Rounding evaluated through an exact rational. -/
theorem round2R_at (q r : ℚ) (hq : round2Q q = r) (x y : ℝ)
    (hx : x = (q : ℝ)) (hy : ((r : ℚ) : ℝ) = y) : round2R x = y := by
  rw [hx, round2R_ratCast, hq, hy]

/-- The multiplier is the constant 1 before 20:00. -/
theorem time_multiplier_lt20 {h : ℕ} (hh : h < 20) : time_multiplier h = 1 := by
  simp [time_multiplier, hh]

/-- nonlinear fixes 1. -/
theorem nonlinear_one (cfg : RiskConfig) : nonlinear cfg 1 = 1 :=
  Real.one_rpow _

/-- nonlinear sends 0 to 0 for a nonzero exponent. -/
theorem nonlinear_zero (cfg : RiskConfig) (h : cfg.nonlinear_exponent ≠ 0) :
    nonlinear cfg 0 = 0 :=
  Real.zero_rpow h

/-- Risk of a (crime 1, lighting 1, crowd 1) segment at a pre-20:00 hour:
only the crime term survives, so the score is the rounded crime weight. -/
theorem risk_111_gen (cfg : RiskConfig) (he : cfg.nonlinear_exponent ≠ 0)
    (i : String) (a b : ℝ × ℝ) :
    calculate_risk_value cfg ⟨i, a, b, 1, 1, 1⟩ 10 = round2R cfg.crime_weight := by
  unfold calculate_risk_value
  rw [time_multiplier_lt20 (by omega)]
  show round2R ((cfg.crime_weight * nonlinear cfg 1
    + cfg.lighting_weight * nonlinear cfg (1 - 1)
    + cfg.crowd_weight * nonlinear cfg (1 - 1)) * 1) = _
  rw [nonlinear_one, sub_self, nonlinear_zero cfg he]
  ring_nf

/-- C8: the memoised risk score equals the spec's formula
round((crime_weight * crime^e + lighting_weight * (1-lighting)^e +
crowd_weight * (1-crowd)^e) * timeMultiplier(hour), 2) with
e = nonlinear_exponent, and under an unchanged risk config two consecutive
evaluations of the memoised calculate_risk return the same value. -/
theorem C8_risk_score_formula_deterministic :
    (∀ cfg s hour, calculate_risk_value cfg s hour =
      round2R ((cfg.crime_weight * s.crime ^ cfg.nonlinear_exponent
        + cfg.lighting_weight * (1 - s.lighting) ^ cfg.nonlinear_exponent
        + cfg.crowd_weight * (1 - s.crowd) ^ cfg.nonlinear_exponent)
        * time_multiplier hour)) ∧
    (∀ st sid hour,
      (calculate_risk_memo ((calculate_risk_memo st sid hour).2) sid hour).1
        = (calculate_risk_memo st sid hour).1) := by
  constructor
  · intro cfg s hour
    rfl
  · intro st sid hour
    cases hm : alookup st.risk_memo (sid, hour) with
    | some v =>
        simp [calculate_risk_memo, hm, alookup_lruTouch_self]
    | none =>
        cases hs : alookup st.segments sid with
        | none => simp [calculate_risk_memo, hm, hs]
        | some seg => simp [calculate_risk_memo, hm, hs, alookup_lruTouch_self]

/-- The default config scores a (1,1,1) segment 0.6 at hour 10. -/
theorem risk_seg0_default : calculate_risk_value defaultRiskConfig seg0 10 = 0.6 := by
  have h := risk_111_gen defaultRiskConfig
    (by norm_num [defaultRiskConfig]) "s0" (0, 0) (1, 0)
  have hseg : (⟨"s0", (0, 0), (1, 0), 1, 1, 1⟩ : Segment) = seg0 := rfl
  rw [hseg] at h
  rw [h]
  exact round2R_at 0.6 0.6
    (by rw [round2Q_eval 0.6 60 (by norm_num) (by norm_num)]; norm_num) _ _
    (by norm_num [defaultRiskConfig]) (by norm_num)

/-- The patched config (crime_weight 0.4) scores the same segment 0.4. -/
theorem risk_seg0_patched :
    calculate_risk_value (defaultRiskConfig.update patch04) seg0 10 = 0.4 := by
  have h := risk_111_gen (defaultRiskConfig.update patch04)
    (by norm_num [defaultRiskConfig, RiskConfig.update, patch04]) "s0" (0, 0) (1, 0)
  have hseg : (⟨"s0", (0, 0), (1, 0), 1, 1, 1⟩ : Segment) = seg0 := rfl
  rw [hseg] at h
  rw [h]
  exact round2R_at 0.4 0.4
    (by rw [round2Q_eval 0.4 40 (by norm_num) (by norm_num)]; norm_num) _ _
    (by norm_num [defaultRiskConfig, RiskConfig.update, patch04]) (by norm_num)

/-- C1 (code bug): on the one-segment fixture, the first route-graph build
is cached and an identical repeated query returns the same graph (the
claim's positive half); but after /config_risk updates crime_weight to
0.4 — which clears only the risk memo — the same query still returns the
cached graph whose edge risk is 0.6, while a fresh build under the updated
config scores it 0.4: the next query does not reflect the new config. -/
theorem C1_config_update_leaves_stale_graph :
    ∃ g1 st1, build_graph engineState0 10 (1 / 2) = some (g1, st1) ∧
      g1.edges.map Edge.risk = [0.6] ∧
      (build_graph st1 10 (1 / 2)).map Prod.fst = some g1 ∧
      (build_graph (config_risk st1 patch04).2 10 (1 / 2)).map Prod.fst = some g1 ∧
      (build_graph_uncached (config_risk st1 patch04).2 10 (1 / 2)).map
        (fun p => p.1.edges.map Edge.risk) = some [0.4] ∧
      (0.6 : ℝ) ≠ 0.4 := by
  refine ⟨_, _, rfl, ?_, ?_, ?_, ?_, by norm_num⟩
  · simp [engineState0, Graph.addEdge, insertEdge, risk_seg0_default]
  · simp [build_graph, alookup, lruTouch, engineState0]
  · simp [build_graph, config_risk, alookup, lruTouch, engineState0]
  · simp [build_graph_uncached, build_graph_loop, calculate_risk_memo, alookup,
      config_risk, engineState0, Graph.addEdge, insertEdge, lruTouch,
      risk_seg0_patched]

/-- C2 (code bug): dataset replacement is neither atomic nor honestly
reported.  (a) A record missing a required field fails validation before
any mutation — the maps are indeed untouched — but reload_data still
answers with the success envelope instead of a dataset failure.  (b) A
schema-valid record whose coordinate arrays mismatch makes math.dist raise
mid-loop after the old maps were already cleared: the previous segment s0
is lost, the segment map holds the partial new data including the bad
record, the distances map is out of sync with it, and the version stamp is
not bumped — yet the caller is again told "Dataset reloaded". -/
theorem C2_reload_swallows_failures_and_partially_swaps :
    (validate_dataset_schema [rawMissingCrime] = false ∧
      reload_data loaderState0 [rawMissingCrime]
        = (ApiResult.ok "Dataset reloaded", loaderState0)) ∧
    (validate_dataset_schema [rawGood, rawBadCoords] = true ∧
      (reload_data loaderState0 [rawGood, rawBadCoords]).1
        = ApiResult.ok "Dataset reloaded" ∧
      (reload_data loaderState0 [rawGood, rawBadCoords]).2.segments_by_id.map Prod.fst
        = ["g1", "b1"] ∧
      (reload_data loaderState0 [rawGood, rawBadCoords]).2.segment_distances.map Prod.fst
        = ["g1"] ∧
      loaderState0.segments_by_id.map Prod.fst = ["s0"] ∧
      (reload_data loaderState0 [rawGood, rawBadCoords]).2.dataset_ts
        = loaderState0.dataset_ts) := by
  refine ⟨⟨rfl, rfl⟩, rfl, rfl, rfl, rfl, rfl, rfl⟩

/-- argminKey is none exactly on the empty list. -/
theorem argminKey_eq_none_iff {V K : Type} [LinearOrder K] (f : V → K)
    (l : List V) : argminKey f l = none ↔ l = [] := by
  cases l with
  | nil => simp [argminKey]
  | cons v rest =>
      simp only [argminKey]
      cases argminKey f rest with
      | none => simp
      | some w =>
          by_cases h : f w < f v <;> simp [h]

/-- argminKey returns an element of the list. -/
theorem argminKey_mem {V K : Type} [LinearOrder K] {f : V → K}
    {l : List V} {w : V} (h : argminKey f l = some w) : w ∈ l := by
  induction l generalizing w with
  | nil => simp [argminKey] at h
  | cons v rest ih =>
      cases hm : argminKey f rest with
      | none =>
          simp only [argminKey, hm] at h
          simp at h
          simp [h]
      | some m =>
          simp only [argminKey, hm] at h
          by_cases hc : f m < f v
          · rw [if_pos hc] at h
            simp at h
            subst h
            exact List.mem_cons_of_mem _ (ih hm)
          · rw [if_neg hc] at h
            simp at h
            simp [h]

/-- argminKey attains the minimum of the key over the list. -/
theorem argminKey_min {V K : Type} [LinearOrder K] {f : V → K}
    {l : List V} {w : V} (h : argminKey f l = some w) :
    ∀ u ∈ l, f w ≤ f u := by
  induction l generalizing w with
  | nil => simp [argminKey] at h
  | cons v rest ih =>
      intro u hu
      cases hm : argminKey f rest with
      | none =>
          simp only [argminKey, hm] at h
          simp at h
          have hrest : rest = [] := (argminKey_eq_none_iff f rest).mp hm
          subst hrest
          simp at hu
          subst h; subst hu
          exact le_refl _
      | some m =>
          simp only [argminKey, hm] at h
          rcases List.mem_cons.mp hu with hv | hr
          · rw [hv]
            by_cases hc : f m < f v
            · rw [if_pos hc] at h
              simp at h
              subst h
              exact le_of_lt hc
            · rw [if_neg hc] at h
              simp at h
              subst h
              exact le_refl _
          · by_cases hc : f m < f v
            · rw [if_pos hc] at h
              simp at h
              subst h
              exact ih hm u hr
            · rw [if_neg hc] at h
              simp at h
              subst h
              exact le_trans (not_lt.mp hc) (ih hm u hr)

/-- C6: nearest_node fails (the EmptyGraphError case) exactly when the
graph has no vertices; on a non-empty graph it always succeeds with a
vertex of minimal planar distance to the query point, however large that
distance is — a far query point only switches on the snap advisory, it
never makes the call fail. -/
theorem C6_nearest_node_total_on_nonempty (G : Graph) (p : ℝ × ℝ) :
    (G.nodes = [] → nearest_node G p = none) ∧
    (G.nodes ≠ [] → ∃ v, nearest_node G p = some v ∧ v ∈ G.nodes ∧
      (∀ u ∈ G.nodes, distP v p ≤ distP u p) ∧
      snap_advisory G p = decide (MAX_SNAP_DISTANCE < distP v p)) := by
  constructor
  · intro h
    unfold nearest_node
    rw [(argminKey_eq_none_iff _ _).mpr h]
  · intro h
    cases hv : nearest_node G p with
    | none =>
        unfold nearest_node at hv
        exact absurd ((argminKey_eq_none_iff _ _).mp hv) h
    | some v =>
        refine ⟨v, rfl, argminKey_mem hv, argminKey_min hv, ?_⟩
        unfold snap_advisory
        rw [hv]

/-- Distance between two points on a horizontal line. -/
theorem distP_x (a b y : ℝ) : distP (a, y) (b, y) = |a - b| := by
  unfold distP
  rw [show (a - b) ^ 2 + (y - y) ^ 2 = (a - b) ^ 2 by ring]
  exact Real.sqrt_sq_eq_abs _

/-- Witness for C6: on the two-vertex fixture graph, a query point 4
units away still succeeds — it snaps to the closest vertex (1,0) with the
advisory raised. -/
theorem C6_witness :
    (∃ v, nearest_node graphW (5, 0) = some v ∧ v ∈ graphW.nodes ∧
      ∀ u ∈ graphW.nodes, distP v (5, 0) ≤ distP u (5, 0)) ∧
    nearest_node graphW (5, 0) = some (1, 0) ∧
    snap_advisory graphW (5, 0) = true := by
  have hnodes : graphW.nodes = [(0, 0), (1, 0)] := by
    norm_num [Graph.nodes, graphW, edgeW, addNode, Prod.ext_iff]
  have hnear : nearest_node graphW (5, 0) = some (1, 0) := by
    unfold nearest_node
    rw [hnodes]
    simp only [argminKey]
    rw [if_pos (by rw [distP_x, distP_x]; norm_num [abs_of_nonpos, abs_of_neg])]
  refine ⟨?_, hnear, ?_⟩
  · obtain ⟨v, h1, h2, h3, _⟩ :=
      (C6_nearest_node_total_on_nonempty graphW (5, 0)).2 (by rw [hnodes]; simp)
    exact ⟨v, h1, h2, h3⟩
  · simp only [snap_advisory, hnear, distP_x]
    norm_num [MAX_SNAP_DISTANCE, abs_of_nonpos]

/-- With equal endpoints the search pops its initial entry, sees the
target and returns the single-vertex path: one unit of fuel suffices and
neither the adjacency nor the heuristic is ever consulted. -/
theorem astar_path_self {V K : Type} [DecidableEq V] [LinearOrderedField K]
    (adj : V → List (V × K)) (heur : V → K) (v : V) {fuel : ℕ} (h : 1 ≤ fuel) :
    astar_path adj heur v v fuel = .found [v] := by
  obtain ⟨n, rfl⟩ : ∃ n, fuel = n + 1 := ⟨fuel - 1, by omega⟩
  unfold astar_path
  simp [astarLoop, extractMin, reconstructPath]

/-- C5: whenever origin and destination snap to the same graph vertex, the
route computation returns the single-vertex result {eta 0, risk 0,
confidence 1} plus the advisory warning; and the search contributes
nothing: invoked with equal endpoints it answers the single-vertex path at
once, whatever the graph's adjacency or the heuristic (its result does not
depend on either). -/
theorem C5_same_vertex_short_circuit (st : ServerState) (now : ℝ)
    (origin destination : ℝ × ℝ) (hour : ℕ) (alpha : ℝ) (G : Graph)
    (st1 : ServerState) (v : ℝ × ℝ)
    (hbuild : build_graph (auto_clear_cache st now) hour alpha = some (G, st1))
    (ho : nearest_node G origin = some v)
    (hd : nearest_node G destination = some v) :
    compute_route st now origin destination hour alpha
      = some (.ok { path := [v], eta := 0, risk := 0, confidence := 1,
                    geometry := none,
                    warning := some "Origin and destination are extremely close" },
              st1) ∧
    (∀ (adj : (ℝ × ℝ) → List ((ℝ × ℝ) × ℝ)) (heur : (ℝ × ℝ) → ℝ) (fuel : ℕ),
      1 ≤ fuel → astar_path adj heur v v fuel = .found [v]) := by
  constructor
  · have hself := astar_path_self G.succWeights (fun w => distP w v) v
      (by simp [graphFuel] : 1 ≤ graphFuel G)
    simp [compute_route, hbuild, ho, hd, pyTruthy, hself]
  · intro adj heur fuel hf
    exact astar_path_self adj heur v hf

/-- The first cached build on the one-segment fixture. -/
theorem build_graph_engineState0 :
    build_graph engineState0 10 (1 / 2) = some (graph0, state1) := rfl

/-- The TTL backstop does not fire at time 0. -/
theorem auto_clear_engineState0 : auto_clear_cache engineState0 0 = engineState0 := by
  unfold auto_clear_cache
  rw [if_neg]
  norm_num [GRAPH_CACHE_TTL, engineState0]

/-- graph0 has the two endpoint vertices of seg0. -/
theorem graph0_nodes : graph0.nodes = [(0, 0), (1, 0)] := by
  norm_num [Graph.nodes, graph0, edge0, addNode, Prod.ext_iff]

/-- Witness for C5: on the one-segment fixture, the query points (0,0) and
(0.3,0) both snap to the vertex (0,0), and compute_route returns the
single-vertex advisory result. -/
theorem C5_witness :
    compute_route engineState0 0 (0, 0) (0.3, 0) 10 (1 / 2)
      = some (.ok { path := [(0, 0)], eta := 0, risk := 0, confidence := 1,
                    geometry := none,
                    warning := some "Origin and destination are extremely close" },
              state1) := by
  have hbuild : build_graph (auto_clear_cache engineState0 0) 10 (1 / 2)
      = some (graph0, state1) := by
    rw [auto_clear_engineState0]
    exact build_graph_engineState0
  have ho : nearest_node graph0 (0, 0) = some (0, 0) := by
    unfold nearest_node
    rw [graph0_nodes]
    simp only [argminKey]
    rw [if_neg (by rw [distP_x, distP_x]; norm_num)]
  have hd : nearest_node graph0 (0.3, 0) = some (0, 0) := by
    unfold nearest_node
    rw [graph0_nodes]
    simp only [argminKey]
    rw [if_neg]
    rw [distP_x, distP_x]
    rw [show |(1 : ℝ) - 0.3| = 0.7 by rw [abs_of_pos] <;> norm_num,
        show |(0 : ℝ) - 0.3| = 0.3 by rw [abs_of_neg] <;> norm_num]
    norm_num
  exact (C5_same_vertex_short_circuit engineState0 0 (0, 0) (0.3, 0) 10 (1 / 2)
    graph0 state1 (0, 0) hbuild ho hd).1

/-- C9: compute_route never returns the "Origin too far from known roads"
or "Destination too far from known roads" errors: their guards test the
Python truthiness of a returned vertex, and a vertex that nearest_node
returns is a nonempty (2-component) tuple, which is always truthy. -/
theorem C9_too_far_errors_unreachable (st : ServerState) (now : ℝ)
    (origin destination : ℝ × ℝ) (hour : ℕ) (alpha : ℝ) :
    ∀ st1, compute_route st now origin destination hour alpha
        ≠ some (.error .originTooFar, st1) ∧
      compute_route st now origin destination hour alpha
        ≠ some (.error .destTooFar, st1) := by
  intro st1
  simp only [compute_route]
  cases hb : build_graph (auto_clear_cache st now) hour alpha with
  | none => simp
  | some p =>
      obtain ⟨G, st2⟩ := p
      cases ho : nearest_node G origin with
      | none => simp [ho]
      | some onode =>
          cases hd : nearest_node G destination with
          | none => simp [ho, hd]
          | some dnode =>
              cases ha : astar_path G.succWeights (fun v => distP v dnode) onode dnode
                  (graphFuel G) with
              | found path =>
                  by_cases hlen : path.length = 1
                  · simp [ho, hd, ha, pyTruthy, hlen]
                  · cases hs : sumPathAttrs G path with
                    | none => simp [ho, hd, ha, pyTruthy, hlen, hs]
                    | some t =>
                        obtain ⟨eta, risk, geoms⟩ := t
                        simp [ho, hd, ha, pyTruthy, hlen, hs]
              | noPath => simp [ho, hd, ha, pyTruthy]
              | failed => simp [ho, hd, ha, pyTruthy]
              | outOfFuel => simp [ho, hd, ha, pyTruthy]

/-- C10: the computed answer of /get_routes is independent of the
request's speed field — the handler binds it and never passes it on, and
edge ETAs inside build_graph always use DEFAULT_SPEED_KMPH — so two
requests differing only in speed get identical responses and leave
identical states. -/
theorem C10_speed_field_inert (st : ServerState) (rs : RateState) (now : ℝ)
    (ip : String) (req : RouteRequest) (s1 s2 : Option ℝ) :
    get_routes st rs now ip { req with speed := s1 }
      = get_routes st rs now ip { req with speed := s2 } := rfl

/-- alookup misses exactly when no binding carries the key. -/
theorem alookup_eq_none_iff {α β : Type} [DecidableEq α] (l : List (α × β)) (k : α) :
    alookup l k = none ↔ ∀ p ∈ l, p.1 ≠ k := by
  induction l with
  | nil => simp [alookup]
  | cons p rest ih =>
      obtain ⟨a, b⟩ := p
      by_cases h : a = k
      · subst h
        simp [alookup]
      · simp [alookup, h, ih]

/-- Touching one lru key preserves the absence of a different key. -/
theorem alookup_lruTouch_none {κ β : Type} [DecidableEq κ]
    {c : List (κ × β)} {k k' : κ} (v : β) (n : ℕ) (hne : k' ≠ k)
    (h : alookup c k = none) : alookup (lruTouch c k' v n) k = none := by
  unfold lruTouch
  simp only [alookup, if_neg hne]
  rw [alookup_eq_none_iff]
  intro p hp
  have hpc : p ∈ c := List.mem_of_mem_filter (List.take_subset _ _ hp)
  exact (alookup_eq_none_iff c k).mp h p hpc

/-- calculate_risk_memo on a memo miss with the segment present: it
computes the fresh score from the ambient config and memoises it. -/
theorem calc_risk_memo_miss {st : ServerState} {sid : String} {hour : ℕ}
    {seg : Segment} (hm : alookup st.risk_memo (sid, hour) = none)
    (hs : alookup st.segments sid = some seg) :
    calculate_risk_memo st sid hour
      = (some (calculate_risk_value st.risk_config seg hour),
         { st with
           risk_memo := lruTouch st.risk_memo (sid, hour)
             (calculate_risk_value st.risk_config seg hour) 2000 }) := by
  simp [calculate_risk_memo, hm, hs]

/-- Everything in an insertEdge result was there before or is the new edge. -/
theorem mem_insertEdge {es : List Edge} {e x : Edge} (h : x ∈ insertEdge es e) :
    x ∈ es ∨ x = e := by
  induction es with
  | nil =>
      simp only [insertEdge] at h
      simp at h
      exact Or.inr h
  | cons e1 rest ih =>
      simp only [insertEdge] at h
      by_cases hc : e1.src = e.src ∧ e1.dst = e.dst
      · rw [if_pos hc] at h
        rcases List.mem_cons.mp h with h1 | h2
        · exact Or.inr h1
        · exact Or.inl (List.mem_cons_of_mem _ h2)
      · rw [if_neg hc] at h
        rcases List.mem_cons.mp h with h1 | h2
        · exact Or.inl (by simp [h1])
        · rcases ih h2 with h3 | h3
          · exact Or.inl (List.mem_cons_of_mem _ h3)
          · exact Or.inr h3

/-- The inserted edge is present afterwards (replacing or appended). -/
theorem insertEdge_self (es : List Edge) (e : Edge) : e ∈ insertEdge es e := by
  induction es with
  | nil => simp [insertEdge]
  | cons e1 rest ih =>
      simp only [insertEdge]
      by_cases hc : e1.src = e.src ∧ e1.dst = e.dst
      · rw [if_pos hc]
        exact List.mem_cons_self _ _
      · rw [if_neg hc]
        exact List.mem_cons_of_mem _ ih

/-- An edge on a different (src, dst) slot survives an insertion. -/
theorem insertEdge_keep {es : List Edge} {e x : Edge} (hx : x ∈ es)
    (hne : ¬(x.src = e.src ∧ x.dst = e.dst)) : x ∈ insertEdge es e := by
  induction es with
  | nil => simp at hx
  | cons e1 rest ih =>
      simp only [insertEdge]
      by_cases hc : e1.src = e.src ∧ e1.dst = e.dst
      · rw [if_pos hc]
        rcases List.mem_cons.mp hx with h1 | h2
        · exfalso
          rw [h1] at hne
          exact hne hc
        · exact List.mem_cons_of_mem _ h2
      · rw [if_neg hc]
        rcases List.mem_cons.mp hx with h1 | h2
        · rw [h1]
          exact List.mem_cons_self _ _
        · exact List.mem_cons_of_mem _ (ih h2)

/-- insertEdge keeps the edge list one-per-slot. -/
theorem insertEdge_pairwise {es : List Edge} {e : Edge}
    (h : es.Pairwise edgeKeyNe) : (insertEdge es e).Pairwise edgeKeyNe := by
  induction es with
  | nil => simp [insertEdge]
  | cons e1 rest ih =>
      rcases List.pairwise_cons.mp h with ⟨h1, h2⟩
      simp only [insertEdge]
      by_cases hc : e1.src = e.src ∧ e1.dst = e.dst
      · rw [if_pos hc]
        refine List.pairwise_cons.mpr ⟨?_, h2⟩
        intro y hy
        have hxy := h1 y hy
        intro hcon
        exact hxy ⟨hc.1.trans hcon.1, hc.2.trans hcon.2⟩
      · rw [if_neg hc]
        refine List.pairwise_cons.mpr ⟨?_, ih h2⟩
        intro y hy
        rcases mem_insertEdge hy with h3 | h3
        · exact h1 y h3
        · rw [h3]
          exact hc

/-- A one-per-slot edge list has at most one edge on each slot. -/
theorem pairwise_filter_le_one {es : List Edge} (h : es.Pairwise edgeKeyNe)
    (a b : ℝ × ℝ) :
    (es.filter (fun x => decide (x.src = a) && decide (x.dst = b))).length ≤ 1 := by
  have hp := h.filter (fun x => decide (x.src = a) && decide (x.dst = b))
  cases hf : es.filter (fun x => decide (x.src = a) && decide (x.dst = b)) with
  | nil => simp
  | cons x rest =>
      cases rest with
      | nil => simp
      | cons y rest2 =>
          exfalso
          rw [hf] at hp
          rcases List.pairwise_cons.mp hp with ⟨h1, _⟩
          have hxy := h1 y (List.mem_cons_self _ _)
          have hxin : x ∈ es.filter (fun x => decide (x.src = a) && decide (x.dst = b)) := by
            rw [hf]; exact List.mem_cons_self _ _
          have hyin : y ∈ es.filter (fun x => decide (x.src = a) && decide (x.dst = b)) := by
            rw [hf]; exact List.mem_cons_of_mem _ (List.mem_cons_self _ _)
          have hx := List.of_mem_filter hxin
          have hy := List.of_mem_filter hyin
          simp only [Bool.and_eq_true, decide_eq_true_eq] at hx hy
          exact hxy ⟨hx.1.trans hy.1.symm, hx.2.trans hy.2.symm⟩

/-- An edge on a slot untouched by the remaining insertions survives the
whole build fold. -/
theorem foldl_insert_keep (f : String × Segment → Edge) :
    ∀ (l : List (String × Segment)) (es : List Edge) (x : Edge), x ∈ es →
      (∀ p ∈ l, ¬(x.src = (f p).src ∧ x.dst = (f p).dst)) →
      x ∈ l.foldl (fun acc p => insertEdge acc (f p)) es := by
  intro l
  induction l with
  | nil => intro es x hx _; simpa using hx
  | cons p rest ih =>
      intro es x hx hall
      simp only [List.foldl_cons]
      exact ih _ x (insertEdge_keep hx (hall p (List.mem_cons_self _ _)))
        (fun q hq => hall q (List.mem_cons_of_mem _ hq))

/-- Every edge of the build fold is pre-existing or generated by some
segment of the list. -/
theorem foldl_insert_subset (f : String × Segment → Edge) :
    ∀ (l : List (String × Segment)) (es : List Edge) (x : Edge),
      x ∈ l.foldl (fun acc p => insertEdge acc (f p)) es →
      x ∈ es ∨ ∃ p ∈ l, x = f p := by
  intro l
  induction l with
  | nil => intro es x hx; exact Or.inl (by simpa using hx)
  | cons p rest ih =>
      intro es x hx
      simp only [List.foldl_cons] at hx
      rcases ih _ x hx with h1 | h1
      · rcases mem_insertEdge h1 with h2 | h2
        · exact Or.inl h2
        · exact Or.inr ⟨p, List.mem_cons_self _ _, h2⟩
      · obtain ⟨q, hq, he⟩ := h1
        exact Or.inr ⟨q, List.mem_cons_of_mem _ hq, he⟩

/-- The build fold keeps the one-per-slot invariant. -/
theorem foldl_insert_pairwise (f : String × Segment → Edge) :
    ∀ (l : List (String × Segment)) (es : List Edge),
      es.Pairwise edgeKeyNe →
      (l.foldl (fun acc p => insertEdge acc (f p)) es).Pairwise edgeKeyNe := by
  intro l
  induction l with
  | nil => intro es h; simpa using h
  | cons p rest ih =>
      intro es h
      simp only [List.foldl_cons]
      exact ih _ (insertEdge_pairwise h)

/-- The body of build_graph realises exactly the insertEdge fold of the
per-segment edges, on any state whose memo knows nothing about the listed
segments and whose store and distance map cover them. -/
theorem build_graph_loop_spec (hour : ℕ) (alpha : ℝ) :
    ∀ (l : List (String × Segment)) (G : Graph) (st : ServerState),
      (∀ p ∈ l, alookup st.risk_memo (p.1, hour) = none) →
      (∀ p ∈ l, alookup st.segments p.1 = some p.2) →
      (∀ p ∈ l, (alookup st.distances p.1).isSome) →
      l.Pairwise (fun p q => p.1 ≠ q.1) →
      ∃ st1, build_graph_loop hour alpha l G st
        = some (⟨l.foldl (fun es p => insertEdge es (segEdge st hour alpha p)) G.edges⟩,
                st1) := by
  intro l
  induction l with
  | nil =>
      intro G st _ _ _ _
      exact ⟨st, rfl⟩
  | cons p rest ih =>
      intro G st hmemo hseg hdist hpw
      obtain ⟨sid, seg⟩ := p
      have hm := hmemo (sid, seg) (List.mem_cons_self _ _)
      have hs := hseg (sid, seg) (List.mem_cons_self _ _)
      obtain ⟨d, hd⟩ := Option.isSome_iff_exists.mp
        (hdist (sid, seg) (List.mem_cons_self _ _))
      rcases List.pairwise_cons.mp hpw with ⟨hhead, htail⟩
      have hrec := ih
        (G.addEdge (segEdge st hour alpha (sid, seg)))
        ({ st with
           risk_memo := lruTouch st.risk_memo (sid, hour)
             (calculate_risk_value st.risk_config seg hour) 2000 })
        (fun q hq => alookup_lruTouch_none _ _
          (by
            intro hk
            exact hhead q hq (congrArg (Prod.fst : String × ℕ → String) hk))
          (hmemo q (List.mem_cons_of_mem _ hq)))
        (fun q hq => hseg q (List.mem_cons_of_mem _ hq))
        (fun q hq => hdist q (List.mem_cons_of_mem _ hq))
        htail
      obtain ⟨st1, h1⟩ := hrec
      refine ⟨st1, ?_⟩
      simp only [build_graph_loop, calc_risk_memo_miss hm hs, hd]
      have hedge : (⟨seg.start, seg.stop, compute_eta d DEFAULT_SPEED_KMPH,
          calculate_risk_value st.risk_config seg hour,
          alpha * compute_eta d DEFAULT_SPEED_KMPH
            + (1 - alpha) * calculate_risk_value st.risk_config seg hour,
          [seg.start, seg.stop], sid⟩ : Edge)
          = segEdge st hour alpha (sid, seg) := by
        unfold segEdge
        rw [hd]
        rfl
      rw [hedge]
      exact h1

/-- round2R fixes 0. -/
theorem round2R_zero : round2R 0 = 0 := by
  unfold round2R
  norm_num

/-- Evaluate the risk score from precomputed nonlinear terms, at an hour
before 20:00. -/
theorem calculate_risk_eval (cfg : RiskConfig) (s : Segment) (hour : ℕ)
    (hh : hour < 20) (x y z : ℝ)
    (hx : nonlinear cfg s.crime = x) (hy : nonlinear cfg (1 - s.lighting) = y)
    (hz : nonlinear cfg (1 - s.crowd) = z) :
    calculate_risk_value cfg s hour
      = round2R (cfg.crime_weight * x + cfg.lighting_weight * y + cfg.crowd_weight * z) := by
  unfold calculate_risk_value
  rw [hx, hy, hz, time_multiplier_lt20 hh, mul_one]

/-- Segment a (crime 0, lighting 1, crowd 1) scores 0. -/
theorem risk_segA : calculate_risk_value defaultRiskConfig segA 10 = 0 := by
  have h := calculate_risk_eval defaultRiskConfig segA 10 (by omega) 0 0 0
    (by
      show nonlinear defaultRiskConfig (0 : ℝ) = 0
      exact nonlinear_zero _ (by norm_num [defaultRiskConfig]))
    (by
      show nonlinear defaultRiskConfig (1 - (1 : ℝ)) = 0
      rw [sub_self]
      exact nonlinear_zero _ (by norm_num [defaultRiskConfig]))
    (by
      show nonlinear defaultRiskConfig (1 - (1 : ℝ)) = 0
      rw [sub_self]
      exact nonlinear_zero _ (by norm_num [defaultRiskConfig]))
  rw [h, show defaultRiskConfig.crime_weight * 0 + defaultRiskConfig.lighting_weight * 0
    + defaultRiskConfig.crowd_weight * 0 = (0 : ℝ) by ring, round2R_zero]

/-- Segment b (crime 1, lighting 1, crowd 1) scores 0.6. -/
theorem risk_segB : calculate_risk_value defaultRiskConfig segB 10 = 0.6 := by
  have h := risk_111_gen defaultRiskConfig (by norm_num [defaultRiskConfig]) "b" (0, 0) (1, 0)
  have hseg : (⟨"b", (0, 0), (1, 0), 1, 1, 1⟩ : Segment) = segB := rfl
  rw [hseg] at h
  rw [h]
  exact round2R_at 0.6 0.6
    (by rw [round2Q_eval 0.6 60 (by norm_num) (by norm_num)]; norm_num) _ _
    (by norm_num [defaultRiskConfig]) (by norm_num)

/-- C7 counterexample: two distinct store segments a and b share the same
(start, end) pair; the built graph carries exactly one edge, whose risk is
b's score 0.6, not a's score 0 — so the claim's per-segment attribute
guarantee ("the edge from the segment's start to its end carries that
segment's attributes") fails for segment a. -/
theorem C7_counterexample :
    ∃ g st1, build_graph_uncached engineStateDup 10 (1 / 2) = some (g, st1) ∧
      g.edges.map Edge.risk = [0.6] ∧
      calculate_risk_value defaultRiskConfig segA 10 = 0 ∧
      (0.6 : ℝ) ≠ 0 := by
  have hmemo : ∀ p ∈ engineStateDup.segments,
      alookup engineStateDup.risk_memo (p.1, (10 : ℕ)) = none := by
    intro p _
    rfl
  have hseg : ∀ p ∈ engineStateDup.segments,
      alookup engineStateDup.segments p.1 = some p.2 := by
    intro p hp
    have hp2 : p = ("a", segA) ∨ p = ("b", segB) := by
      simpa [engineStateDup] using hp
    rcases hp2 with h | h <;> subst h <;> rfl
  have hdist : ∀ p ∈ engineStateDup.segments,
      (alookup engineStateDup.distances p.1).isSome := by
    intro p hp
    have hp2 : p = ("a", segA) ∨ p = ("b", segB) := by
      simpa [engineStateDup] using hp
    rcases hp2 with h | h <;> subst h <;> rfl
  have hpw : engineStateDup.segments.Pairwise (fun p q => p.1 ≠ q.1) := by
    simp [engineStateDup]
  obtain ⟨st1, h1⟩ := build_graph_loop_spec 10 (1 / 2) engineStateDup.segments
    ⟨[]⟩ engineStateDup hmemo hseg hdist hpw
  refine ⟨⟨engineStateDup.segments.foldl
      (fun es p => insertEdge es (segEdge engineStateDup 10 (1 / 2) p)) []⟩,
    st1, ?_, ?_, risk_segA, by norm_num⟩
  · unfold build_graph_uncached
    exact h1
  · show ((engineStateDup.segments.foldl
        (fun es p => insertEdge es (segEdge engineStateDup 10 (1 / 2) p)) [] : List Edge).map
          Edge.risk) = [0.6]
    have hfold : engineStateDup.segments.foldl
        (fun es p => insertEdge es (segEdge engineStateDup 10 (1 / 2) p)) []
        = [segEdge engineStateDup 10 (1 / 2) ("b", segB)] := by
      show insertEdge (insertEdge [] (segEdge engineStateDup 10 (1 / 2) ("a", segA)))
        (segEdge engineStateDup 10 (1 / 2) ("b", segB)) = _
      simp only [insertEdge]
      rw [if_pos]
      constructor
      · rfl
      · rfl
    rw [hfold]
    simp only [List.map_cons, List.map_nil]
    show [calculate_risk_value engineStateDup.risk_config segB 10] = [0.6]
    rw [show engineStateDup.risk_config = defaultRiskConfig from rfl, risk_segB]

/-- C7 (amended): for every store whose memo is freshly cleared, whose ids
are unique and whose segment/distance maps are consistent, the built graph
keeps at most one directed edge per (src, dst) slot and every edge of it
is generated by some store segment with eta = round((length/30)*60, 2),
risk = the risk-model score and weight = alpha*eta + (1-alpha)*risk — and
every segment whose (start, end) pair no other segment shares contributes
exactly its own edge.  When several segments share a pair, the single edge
on that slot carries the attributes of the last of them (counterexample
above), which is the one amendment the code forces on the claim. -/
theorem C7_build_graph_amended (st : ServerState) (hour : ℕ) (alpha : ℝ)
    (g : Graph) (st1 : ServerState)
    (hmemo : st.risk_memo = [])
    (hnodup : st.segments.Pairwise (fun p q => p.1 ≠ q.1))
    (hseg : ∀ p ∈ st.segments, alookup st.segments p.1 = some p.2)
    (hdist : ∀ p ∈ st.segments, (alookup st.distances p.1).isSome)
    (hb : build_graph_uncached st hour alpha = some (g, st1)) :
    (∀ a b, (g.edges.filter
        (fun x => decide (x.src = a) && decide (x.dst = b))).length ≤ 1) ∧
    (∀ p ∈ st.segments,
      (∀ q ∈ st.segments, q.1 ≠ p.1 →
        ¬(q.2.start = p.2.start ∧ q.2.stop = p.2.stop)) →
      segEdge st hour alpha p ∈ g.edges) ∧
    (∀ e ∈ g.edges, ∃ p ∈ st.segments, e = segEdge st hour alpha p) ∧
    (∀ p : String × Segment,
      (segEdge st hour alpha p).eta
          = compute_eta ((alookup st.distances p.1).getD 0) DEFAULT_SPEED_KMPH ∧
      (segEdge st hour alpha p).risk = calculate_risk_value st.risk_config p.2 hour ∧
      (segEdge st hour alpha p).weight
          = alpha * (segEdge st hour alpha p).eta
            + (1 - alpha) * (segEdge st hour alpha p).risk) := by
  obtain ⟨st2, h1⟩ := build_graph_loop_spec hour alpha st.segments ⟨[]⟩ st
    (by intro q _; rw [hmemo]; rfl) hseg hdist hnodup
  unfold build_graph_uncached at hb
  rw [h1] at hb
  have hg : g = ⟨st.segments.foldl
      (fun es p => insertEdge es (segEdge st hour alpha p)) []⟩ := by
    cases hb
    rfl
  subst hg
  refine ⟨?_, ?_, ?_, fun p => ⟨rfl, rfl, rfl⟩⟩
  · intro a b
    exact pairwise_filter_le_one
      (foldl_insert_pairwise _ st.segments [] (by simp)) a b
  · intro p hp huniq
    obtain ⟨s, t, hst⟩ := List.append_of_mem hp
    have hpw2 := hnodup
    rw [hst] at hpw2
    rcases List.pairwise_append.mp hpw2 with ⟨_, hpt, _⟩
    rcases List.pairwise_cons.mp hpt with ⟨hhead, _⟩
    show segEdge st hour alpha p ∈ st.segments.foldl
      (fun es q => insertEdge es (segEdge st hour alpha q)) []
    rw [hst, List.foldl_append, List.foldl_cons]
    apply foldl_insert_keep
    · exact insertEdge_self _ _
    · intro q hq
      have hqmem : q ∈ st.segments := by
        rw [hst]
        exact List.mem_append_right _ (List.mem_cons_of_mem _ hq)
      have hne := huniq q hqmem (hhead q hq).symm
      intro hcon
      exact hne ⟨hcon.1.symm, hcon.2.symm⟩
  · intro e he
    rcases foldl_insert_subset _ st.segments [] e he with h2 | h2
    · simp at h2
    · exact h2

/-- Witness for C7: on the one-segment fixture (unique endpoints), the
amended theorem yields exactly seg0's edge and the one-per-slot bound. -/
theorem C7_witness :
    segEdge engineState0 10 (1 / 2) ("s0", seg0) ∈ graph0.edges ∧
    (graph0.edges.filter
      (fun x => decide (x.src = ((0 : ℝ), (0 : ℝ)))
        && decide (x.dst = ((1 : ℝ), (0 : ℝ))))).length ≤ 1 := by
  obtain ⟨huniq, hpres, _, _⟩ := C7_build_graph_amended engineState0 10 (1 / 2)
    graph0 state1u rfl (by simp [engineState0])
    (by
      intro p hp
      have hp2 : p = ("s0", seg0) := by simpa [engineState0] using hp
      subst hp2
      rfl)
    (by
      intro p hp
      have hp2 : p = ("s0", seg0) := by simpa [engineState0] using hp
      subst hp2
      rfl)
    rfl
  refine ⟨?_, huniq (0, 0) (1, 0)⟩
  apply hpres ("s0", seg0) (by simp [engineState0])
  intro q hq hne
  have hq2 : q = ("s0", seg0) := by simpa [engineState0] using hq
  subst hq2
  exact absurd rfl hne

/-- The rational-to-real point cast is injective. -/
theorem vmapQ_inj {a b : ℚ × ℚ} : vmapQ a = vmapQ b ↔ a = b := by
  simp [vmapQ, Prod.ext_iff]

/-- Association lookup commutes with an injective key/value mapping. -/
theorem alookup_map {α α2 β β2 : Type} [DecidableEq α] [DecidableEq α2]
    (g : α → α2) (hg : ∀ a b, g a = g b → a = b) (h : β → β2) :
    ∀ (l : List (α × β)) (k : α),
      alookup (l.map (fun p => (g p.1, h p.2))) (g k) = (alookup l k).map h := by
  intro l k
  induction l with
  | nil => rfl
  | cons p rest ih =>
      obtain ⟨a, b⟩ := p
      by_cases hab : a = k
      · subst hab
        simp [alookup]
      · have hgn : ¬(g a = g k) := fun hc => hab (hg _ _ hc)
        simp [alookup, hab, hgn, ih]

/-- Association store commutes with an injective key/value mapping. -/
theorem aupdate_map {α α2 β β2 : Type} [DecidableEq α] [DecidableEq α2]
    (g : α → α2) (hg : ∀ a b, g a = g b → a = b) (h : β → β2) :
    ∀ (l : List (α × β)) (k : α) (v : β),
      aupdate (l.map (fun p => (g p.1, h p.2))) (g k) (h v)
        = (aupdate l k v).map (fun p => (g p.1, h p.2)) := by
  intro l k v
  induction l with
  | nil => rfl
  | cons p rest ih =>
      obtain ⟨a, b⟩ := p
      by_cases hab : a = k
      · subst hab
        simp [aupdate]
      · have hgn : ¬(g a = g k) := fun hc => hab (hg _ _ hc)
        simp [aupdate, hab, hgn, ih]

/-- The popped entry and the remaining heap come from the original heap. -/
theorem extractMin_mem {V K : Type} [LinearOrder K] :
    ∀ (q : List (AEntry V K)) (e : AEntry V K) (rest : List (AEntry V K)),
      extractMin q = some (e, rest) → e ∈ q ∧ ∀ x ∈ rest, x ∈ q := by
  intro q
  induction q with
  | nil => intro e rest h; simp [extractMin] at h
  | cons a as ih =>
      intro e rest h
      simp only [extractMin] at h
      split at h
      · simp at h
        obtain ⟨he, hr⟩ := h
        subst he; subst hr
        exact ⟨List.mem_cons_self _ _, by simp⟩
      · rename_i m rest1 hm
        obtain ⟨hmm, hrest1⟩ := ih m rest1 hm
        split at h
        · simp at h
          obtain ⟨he, hr⟩ := h
          subst he; subst hr
          refine ⟨List.mem_cons_of_mem _ hmm, ?_⟩
          intro x hx
          rcases List.mem_cons.mp hx with h1 | h1
          · rw [h1]; exact List.mem_cons_self _ _
          · exact List.mem_cons_of_mem _ (hrest1 x h1)
        · simp at h
          obtain ⟨he, hr⟩ := h
          subst he; subst hr
          exact ⟨List.mem_cons_self _ _, fun x hx => List.mem_cons_of_mem _ hx⟩

/-- Mapping a singleton append. -/
theorem map_append_singleton {α β : Type} (f : α → β) (l : List α) (x : α) :
    l.map f ++ [f x] = (l ++ [x]).map f := by
  simp

/-- Everything astarPush leaves on the heap was already there or names a
pushed neighbor. -/
theorem astarPush_queue_mem {V K : Type} [DecidableEq V] [LinearOrderedCommRing K]
    (heur : V → K) (cur : V) (curDist : K) :
    ∀ (nbrs : List (V × K)) (q : List (AEntry V K)) (c : ℕ)
      (enq : List (V × (K × K))) (x : AEntry V K),
      x ∈ (astarPush heur cur curDist nbrs (q, c, enq)).1 →
      x ∈ q ∨ ∃ p ∈ nbrs, x.node = p.1 := by
  intro nbrs
  induction nbrs with
  | nil =>
      intro q c enq x hx
      exact Or.inl (by simpa [astarPush] using hx)
  | cons nw rest ih =>
      intro q c enq x hx
      obtain ⟨nbr, w⟩ := nw
      simp only [astarPush] at hx
      split at hx
      · split at hx
        · rcases ih q c enq x hx with h1 | ⟨p, hp, hn⟩
          · exact Or.inl h1
          · exact Or.inr ⟨p, List.mem_cons_of_mem _ hp, hn⟩
        · rcases ih _ _ _ x hx with h1 | ⟨p, hp, hn⟩
          · rcases List.mem_append.mp h1 with h2 | h2
            · exact Or.inl h2
            · refine Or.inr ⟨(nbr, w), List.mem_cons_self _ _, ?_⟩
              simp at h2
              rw [h2]
          · exact Or.inr ⟨p, List.mem_cons_of_mem _ hp, hn⟩
      · rcases ih _ _ _ x hx with h1 | ⟨p, hp, hn⟩
        · rcases List.mem_append.mp h1 with h2 | h2
          · exact Or.inl h2
          · refine Or.inr ⟨(nbr, w), List.mem_cons_self _ _, ?_⟩
            simp at h2
            rw [h2]
        · exact Or.inr ⟨p, List.mem_cons_of_mem _ hp, hn⟩

/-- Heap extraction commutes with an entry mapping whose cost embedding is
strictly monotone and injective. -/
theorem extractMin_mapG {V1 V2 K1 K2 : Type} [LinearOrder K1] [LinearOrder K2]
    (vm : V1 → V2) (f : K1 → K2)
    (hlt : ∀ a b : K1, f a < f b ↔ a < b)
    (hinj : ∀ a b : K1, f a = f b ↔ a = b) :
    ∀ (q : List (AEntry V1 K1)),
      extractMin (q.map (mapEntryG vm f))
        = (extractMin q).map
            (fun pr => (mapEntryG vm f pr.1, pr.2.map (mapEntryG vm f))) := by
  intro q
  induction q with
  | nil => rfl
  | cons e rest ih =>
      simp only [List.map_cons, extractMin, ih]
      cases hm : extractMin rest with
      | none => rfl
      | some pr =>
          obtain ⟨m, rest1⟩ := pr
          simp only [Option.map_some']
          have hiff : ((mapEntryG vm f m).f < (mapEntryG vm f e).f
              ∨ ((mapEntryG vm f m).f = (mapEntryG vm f e).f
                 ∧ (mapEntryG vm f m).cnt < (mapEntryG vm f e).cnt))
              ↔ (m.f < e.f ∨ (m.f = e.f ∧ m.cnt < e.cnt)) := by
            simp only [mapEntryG]
            rw [hlt, hinj]
          by_cases hc : m.f < e.f ∨ (m.f = e.f ∧ m.cnt < e.cnt)
          · rw [if_pos (hiff.mpr hc), if_pos hc]
            rfl
          · rw [if_neg (fun hx => hc (hiff.mp hx)), if_neg hc]
            rfl

/-- alookup through the explored-binding mapping. -/
theorem alookup_mapExpEG {V1 V2 : Type} [DecidableEq V1] [DecidableEq V2]
    (vm : V1 → V2) (hvm : ∀ a b : V1, vm a = vm b → a = b)
    (exp : List (V1 × Option V1)) (u : V1) :
    alookup (exp.map (mapExpEG vm)) (vm u)
      = (alookup exp u).map (Option.map vm) := by
  have h := alookup_map vm hvm (Option.map vm) exp u
  have he : (fun p : V1 × Option V1 => (vm p.1, Option.map vm p.2))
      = mapExpEG vm := by
    funext p
    rfl
  rw [he] at h
  exact h

/-- aupdate through the explored-binding mapping. -/
theorem aupdate_mapExpEG {V1 V2 : Type} [DecidableEq V1] [DecidableEq V2]
    (vm : V1 → V2) (hvm : ∀ a b : V1, vm a = vm b → a = b)
    (exp : List (V1 × Option V1)) (u : V1) (v : Option V1) :
    aupdate (exp.map (mapExpEG vm)) (vm u) (v.map vm)
      = (aupdate exp u v).map (mapExpEG vm) := by
  have h := aupdate_map vm hvm (Option.map vm) exp u v
  have he : (fun p : V1 × Option V1 => (vm p.1, Option.map vm p.2))
      = mapExpEG vm := by
    funext p
    rfl
  rw [he] at h
  exact h

/-- alookup through the enqueued-binding mapping. -/
theorem alookup_mapEnqEG {V1 V2 K1 K2 : Type} [DecidableEq V1] [DecidableEq V2]
    (vm : V1 → V2) (f : K1 → K2) (hvm : ∀ a b : V1, vm a = vm b → a = b)
    (enq : List (V1 × (K1 × K1))) (u : V1) :
    alookup (enq.map (mapEnqEG vm f)) (vm u)
      = (alookup enq u).map (fun pr => (f pr.1, f pr.2)) := by
  have h := alookup_map vm hvm (fun pr : K1 × K1 => (f pr.1, f pr.2)) enq u
  have he : (fun p : V1 × (K1 × K1) => (vm p.1, (f p.2.1, f p.2.2)))
      = mapEnqEG vm f := by
    funext p
    rfl
  rw [he] at h
  exact h

/-- aupdate through the enqueued-binding mapping. -/
theorem aupdate_mapEnqEG {V1 V2 K1 K2 : Type} [DecidableEq V1] [DecidableEq V2]
    (vm : V1 → V2) (f : K1 → K2) (hvm : ∀ a b : V1, vm a = vm b → a = b)
    (enq : List (V1 × (K1 × K1))) (u : V1) (v1 v2 : K1) :
    aupdate (enq.map (mapEnqEG vm f)) (vm u) (f v1, f v2)
      = (aupdate enq u (v1, v2)).map (mapEnqEG vm f) := by
  have h := aupdate_map vm hvm (fun pr : K1 × K1 => (f pr.1, f pr.2)) enq u (v1, v2)
  have he : (fun p : V1 × (K1 × K1) => (vm p.1, (f p.2.1, f p.2.2)))
      = mapEnqEG vm f := by
    funext p
    rfl
  rw [he] at h
  exact h

/-- Path reconstruction commutes with the vertex mapping. -/
theorem reconstructPath_mapG {V1 V2 : Type} [DecidableEq V1] [DecidableEq V2]
    (vm : V1 → V2) (hvm : ∀ a b : V1, vm a = vm b → a = b) :
    ∀ (fuel : ℕ) (exp : List (V1 × Option V1))
      (pr : Option V1) (acc : List V1),
      reconstructPath fuel (exp.map (mapExpEG vm)) (pr.map vm) (acc.map vm)
        = (reconstructPath fuel exp pr acc).map (List.map vm) := by
  intro fuel
  induction fuel with
  | zero =>
      intro exp pr acc
      cases pr with
      | none => rfl
      | some u => rfl
  | succ n ih =>
      intro exp pr acc
      cases pr with
      | none => rfl
      | some u =>
          show reconstructPath (n + 1) (exp.map (mapExpEG vm)) (some (vm u))
            (acc.map vm) = _
          simp only [reconstructPath]
          rw [alookup_mapExpEG vm hvm exp u]
          cases hx : alookup exp u with
          | none => rfl
          | some p2 =>
              simp only [Option.map_some']
              rw [show (acc.map vm) ++ [vm u] = (acc ++ [u]).map vm by simp]
              exact ih exp p2 (acc ++ [u])

/-- The neighbor-expansion loop commutes with an additive order embedding of
the costs and an injective vertex mapping. -/
theorem astarPush_mapG {V1 V2 K1 K2 : Type} [DecidableEq V1] [DecidableEq V2]
    [LinearOrderedCommRing K1] [LinearOrderedCommRing K2]
    (vm : V1 → V2) (f : K1 → K2)
    (hvm : ∀ a b : V1, vm a = vm b → a = b)
    (hle : ∀ a b : K1, f a ≤ f b ↔ a ≤ b)
    (hadd : ∀ a b : K1, f (a + b) = f a + f b)
    (heur2 : V2 → K2) (heur1 : V1 → K1) (cur : V1) (curDist : K1) :
    ∀ (nbrs : List (V1 × K1)) (q : List (AEntry V1 K1)) (c : ℕ)
      (enq : List (V1 × (K1 × K1))),
      (∀ p ∈ nbrs, heur2 (vm p.1) = f (heur1 p.1)) →
      astarPush heur2 (vm cur) (f curDist)
          (nbrs.map (fun p => (vm p.1, f p.2)))
          (q.map (mapEntryG vm f), c, enq.map (mapEnqEG vm f))
        = ((astarPush heur1 cur curDist nbrs (q, c, enq)).1.map (mapEntryG vm f),
           (astarPush heur1 cur curDist nbrs (q, c, enq)).2.1,
           (astarPush heur1 cur curDist nbrs (q, c, enq)).2.2.map
             (mapEnqEG vm f)) := by
  intro nbrs
  induction nbrs with
  | nil =>
      intro q c enq _
      rfl
  | cons nw rest ih =>
      intro q c enq hh
      obtain ⟨nbr, w⟩ := nw
      have hent : ∀ (a d : K1) (c2 : ℕ),
          (⟨f a, c2, vm nbr, f d, some (vm cur)⟩ : AEntry V2 K2)
            = mapEntryG vm f ⟨a, c2, nbr, d, some cur⟩ := by
        intro a d c2
        rfl
      simp only [List.map_cons, astarPush]
      rw [alookup_mapEnqEG vm f hvm enq nbr]
      cases hx : alookup enq nbr with
      | some pr =>
          obtain ⟨qcost, hval⟩ := pr
          simp only [Option.map_some']
          by_cases hc : qcost ≤ curDist + w
          · rw [if_pos (show f qcost ≤ f curDist + f w by
              rw [← hadd]; exact (hle _ _).mpr hc), if_pos hc]
            exact ih q c enq (fun p hp => hh p (List.mem_cons_of_mem _ hp))
          · have hcf : ¬(f qcost ≤ f curDist + f w) := by
              rw [← hadd]
              exact fun hx2 => hc ((hle _ _).mp hx2)
            rw [if_neg hcf, if_neg hc]
            have h1 : f curDist + f w + f hval = f (curDist + w + hval) := by
              rw [hadd, hadd]
            have h2 : f curDist + f w = f (curDist + w) := by rw [hadd]
            rw [h1, h2, hent (curDist + w + hval) (curDist + w) c,
              map_append_singleton (mapEntryG vm f) q _,
              aupdate_mapEnqEG vm f hvm enq nbr (curDist + w) hval]
            exact ih _ _ _ (fun p hp => hh p (List.mem_cons_of_mem _ hp))
      | none =>
          simp only [Option.map_none']
          rw [hh (nbr, w) (List.mem_cons_self _ _)]
          have h1 : f curDist + f w + f (heur1 nbr)
              = f (curDist + w + heur1 nbr) := by
            rw [hadd, hadd]
          have h2 : f curDist + f w = f (curDist + w) := by rw [hadd]
          rw [h1, h2, hent (curDist + w + heur1 nbr) (curDist + w) c,
            map_append_singleton (mapEntryG vm f) q _,
            aupdate_mapEnqEG vm f hvm enq nbr (curDist + w) (heur1 nbr)]
          exact ih _ _ _ (fun p hp => hh p (List.mem_cons_of_mem _ hp))

/-- The search loop replays an exact search through any additive order
embedding of the costs and injective vertex mapping, whenever adjacency,
weights and heuristic commute with them on a vertex set closed under
adjacency. -/
theorem astarLoop_castG {V1 V2 K1 K2 : Type} [DecidableEq V1] [DecidableEq V2]
    [LinearOrderedCommRing K1] [LinearOrderedCommRing K2]
    (vm : V1 → V2) (f : K1 → K2)
    (hvm : ∀ a b : V1, vm a = vm b → a = b)
    (hlt : ∀ a b : K1, f a < f b ↔ a < b)
    (hinj : ∀ a b : K1, f a = f b ↔ a = b)
    (hle : ∀ a b : K1, f a ≤ f b ↔ a ≤ b)
    (hadd : ∀ a b : K1, f (a + b) = f a + f b)
    (adj1 : V1 → List (V1 × K1)) (heur1 : V1 → K1)
    (adj2 : V2 → List (V2 × K2)) (heur2 : V2 → K2)
    (target1 : V1) (P : V1 → Prop)
    (hadj : ∀ v, P v → adj2 (vm v) = (adj1 v).map (fun p => (vm p.1, f p.2)))
    (hclosed : ∀ v, P v → ∀ p ∈ adj1 v, P p.1)
    (hheur : ∀ v, P v → heur2 (vm v) = f (heur1 v)) :
    ∀ (fuel : ℕ) (q : List (AEntry V1 K1)) (c : ℕ)
      (enq : List (V1 × (K1 × K1))) (exp : List (V1 × Option V1)),
      (∀ e ∈ q, P e.node) →
      astarLoop adj2 heur2 (vm target1) fuel (q.map (mapEntryG vm f)) c
          (enq.map (mapEnqEG vm f)) (exp.map (mapExpEG vm))
        = mapResultG vm (astarLoop adj1 heur1 target1 fuel q c enq exp) := by
  intro fuel
  induction fuel with
  | zero =>
      intro q c enq exp _
      rfl
  | succ n ih =>
      intro q c enq exp hq
      simp only [astarLoop]
      rw [extractMin_mapG vm f hlt hinj q]
      cases hx : extractMin q with
      | none => rfl
      | some pr =>
          obtain ⟨e, rest⟩ := pr
          obtain ⟨hemem, hrest⟩ := extractMin_mem q e rest hx
          have hPe : P e.node := hq e hemem
          have hPrest : ∀ x ∈ rest, P x.node := fun x hxm => hq x (hrest x hxm)
          simp only [Option.map_some']
          by_cases ht : e.node = target1
          · rw [if_pos (show (mapEntryG vm f e).node = vm target1 by
              simp [mapEntryG, ht]), if_pos ht]
            rw [List.length_map,
              show [(mapEntryG vm f e).node] = [e.node].map vm from rfl,
              show (mapEntryG vm f e).parent = e.parent.map vm from rfl,
              reconstructPath_mapG vm hvm (exp.length + 1) exp e.parent [e.node]]
            cases hr : reconstructPath (exp.length + 1) exp e.parent [e.node] with
            | none => rfl
            | some p =>
                simp [mapResultG, List.map_reverse]
          · rw [if_neg (show ¬((mapEntryG vm f e).node = vm target1) from
              fun hxx => ht (hvm _ _ (show vm e.node = vm target1 from hxx))),
              if_neg ht]
            rw [show (mapEntryG vm f e).node = vm e.node from rfl,
              alookup_mapExpEG vm hvm exp e.node]
            have hexpand :
                (match astarPush heur2 (vm e.node) (f e.dist)
                    (adj2 (vm e.node))
                    (rest.map (mapEntryG vm f), c, enq.map (mapEnqEG vm f)) with
                 | (q1, c1, enq1) =>
                     astarLoop adj2 heur2 (vm target1) n q1 c1 enq1
                       (aupdate (exp.map (mapExpEG vm)) (vm e.node)
                         (e.parent.map vm)))
                  = mapResultG vm
                    (match astarPush heur1 e.node e.dist (adj1 e.node)
                        (rest, c, enq) with
                     | (q1, c1, enq1) =>
                         astarLoop adj1 heur1 target1 n q1 c1 enq1
                           (aupdate exp e.node e.parent)) := by
              rw [hadj e.node hPe,
                astarPush_mapG vm f hvm hle hadd heur2 heur1 e.node e.dist
                  (adj1 e.node) rest c enq
                  (fun p hp => hheur p.1 (hclosed e.node hPe p hp)),
                aupdate_mapExpEG vm hvm exp e.node e.parent]
              have hqnew : ∀ x ∈ (astarPush heur1 e.node e.dist (adj1 e.node)
                  (rest, c, enq)).1, P x.node := by
                intro x hxm
                rcases astarPush_queue_mem heur1 e.node e.dist (adj1 e.node)
                    rest c enq x hxm with h1 | ⟨p, hp, hn⟩
                · exact hPrest x h1
                · rw [hn]
                  exact hclosed e.node hPe p hp
              exact ih _ _ _ _ hqnew
            cases he2 : alookup exp e.node with
            | some pr2 =>
                cases pr2 with
                | none =>
                    simp only [Option.map_some', Option.map_none']
                    exact ih rest c enq exp hPrest
                | some u =>
                    simp only [Option.map_some']
                    rw [show vm e.node = (mapEntryG vm f e).node from rfl,
                      show (mapEntryG vm f e).node = vm e.node from rfl,
                      alookup_mapEnqEG vm f hvm enq e.node]
                    cases he3 : alookup enq e.node with
                    | none => rfl
                    | some pr3 =>
                        obtain ⟨qcost, hh3⟩ := pr3
                        simp only [Option.map_some']
                        by_cases hc : qcost < e.dist
                        · rw [if_pos (show f qcost < (mapEntryG vm f e).dist by
                            show f qcost < f e.dist
                            exact (hlt _ _).mpr hc), if_pos hc]
                          exact ih rest c enq exp hPrest
                        · rw [if_neg (show ¬(f qcost < (mapEntryG vm f e).dist) by
                            show ¬(f qcost < f e.dist)
                            exact fun hxx => hc ((hlt _ _).mp hxx)), if_neg hc]
                          exact hexpand
            | none =>
                simp only [Option.map_none']
                exact hexpand

/-- The whole search replays an exact search through an additive order
embedding of the costs and an injective vertex mapping. -/
theorem astar_path_castG {V1 V2 K1 K2 : Type} [DecidableEq V1] [DecidableEq V2]
    [LinearOrderedCommRing K1] [LinearOrderedCommRing K2]
    (vm : V1 → V2) (f : K1 → K2)
    (hvm : ∀ a b : V1, vm a = vm b → a = b)
    (hlt : ∀ a b : K1, f a < f b ↔ a < b)
    (hinj : ∀ a b : K1, f a = f b ↔ a = b)
    (hle : ∀ a b : K1, f a ≤ f b ↔ a ≤ b)
    (hadd : ∀ a b : K1, f (a + b) = f a + f b)
    (hzero : f 0 = 0)
    (adj1 : V1 → List (V1 × K1)) (heur1 : V1 → K1)
    (adj2 : V2 → List (V2 × K2)) (heur2 : V2 → K2)
    (source target1 : V1) (P : V1 → Prop)
    (hadj : ∀ v, P v → adj2 (vm v) = (adj1 v).map (fun p => (vm p.1, f p.2)))
    (hclosed : ∀ v, P v → ∀ p ∈ adj1 v, P p.1)
    (hheur : ∀ v, P v → heur2 (vm v) = f (heur1 v))
    (hsrc : P source) (fuel : ℕ) :
    astar_path adj2 heur2 (vm source) (vm target1) fuel
      = mapResultG vm (astar_path adj1 heur1 source target1 fuel) := by
  unfold astar_path
  have hq0 : [(⟨0, 0, vm source, 0, none⟩ : AEntry V2 K2)]
      = ([⟨0, 0, source, 0, none⟩] : List (AEntry V1 K1)).map
          (mapEntryG vm f) := by
    simp [mapEntryG, hzero]
  rw [hq0]
  exact astarLoop_castG vm f hvm hlt hinj hle hadd adj1 heur1 adj2 heur2
    target1 P hadj hclosed hheur fuel [⟨0, 0, source, 0, none⟩] 1 [] []
    (fun e he => by rw [List.mem_singleton.mp he]; exact hsrc)

/-- The scaled-integer cost embedding is strictly monotone. -/
theorem wdivZ_lt_iff {lam : ℝ} (hlam : 0 < lam) (a b : ℤ) :
    wdivZ lam a < wdivZ lam b ↔ a < b := by
  unfold wdivZ
  rw [div_lt_div_iff_of_pos_right hlam]
  exact Int.cast_lt

/-- The scaled-integer cost embedding reflects order. -/
theorem wdivZ_le_iff {lam : ℝ} (hlam : 0 < lam) (a b : ℤ) :
    wdivZ lam a ≤ wdivZ lam b ↔ a ≤ b := by
  unfold wdivZ
  rw [div_le_div_iff_of_pos_right hlam]
  exact Int.cast_le

/-- The scaled-integer cost embedding is injective. -/
theorem wdivZ_inj {lam : ℝ} (hlam : 0 < lam) (a b : ℤ) :
    wdivZ lam a = wdivZ lam b ↔ a = b := by
  unfold wdivZ
  rw [div_eq_div_iff (ne_of_gt hlam) (ne_of_gt hlam)]
  constructor
  · intro h
    exact_mod_cast mul_right_cancel₀ (ne_of_gt hlam) h
  · intro h
    rw [h]

/-- The scaled-integer cost embedding is additive. -/
theorem wdivZ_add (lam : ℝ) (a b : ℤ) :
    wdivZ lam (a + b) = wdivZ lam a + wdivZ lam b := by
  unfold wdivZ
  push_cast
  ring

/-- The scaled-integer cost embedding preserves zero. -/
theorem wdivZ_zero (lam : ℝ) : wdivZ lam 0 = 0 := by
  unfold wdivZ
  norm_num

/-- The scaled-integer vertex embedding is injective. -/
theorem vdivZ_inj {lam : ℝ} (hlam : 0 < lam) (a b : ℤ × ℤ) :
    vdivZ lam a = vdivZ lam b → a = b := by
  intro h
  unfold vdivZ at h
  rw [Prod.ext_iff] at h
  rw [Prod.ext_iff]
  obtain ⟨h1, h2⟩ := h
  exact ⟨(wdivZ_inj hlam _ _).mp h1, (wdivZ_inj hlam _ _).mp h2⟩

/-- Planar distance between scaled colinear points is the scaled integer
coordinate distance. -/
theorem distP_vdivZ_x {lam : ℝ} (hlam : 0 < lam) (a g : ℤ) :
    distP (vdivZ lam (a, 0)) ((g : ℝ) / lam, 0) = wdivZ lam |a - g| := by
  have h1 : vdivZ lam (a, 0) = ((a : ℝ) / lam, 0) := by
    unfold vdivZ
    norm_num
  rw [h1, distP_x, div_sub_div_same, abs_div, abs_of_pos hlam]
  unfold wdivZ
  congr 1
  push_cast
  ring

/-- Fixture-1 adjacency: the built real graph's successor lists are the
scaled casts of the integer mirror's. -/
theorem fix1_adj_cast : ∀ v, v ∈ fix1vertsZ →
    (castGraph fix1Q).succWeights (vdivZ 100 v)
      = (succWeightsZ fix1Z v).map (fun p => (vdivZ 100 p.1, wdivZ 100 p.2)) := by
  intro v hv
  simp only [fix1vertsZ, List.mem_cons, List.not_mem_nil, or_false] at hv
  rcases hv with h | h | h | h <;> subst h <;>
    norm_num [castGraph, castEdge, Graph.succWeights, succWeightsZ, fix1Q, fix1Z,
      vmapQ, vdivZ, wdivZ, List.filterMap, Prod.ext_iff]

/-- Fixture-1 heuristic: planar distance to the target is the scaled cast
of the integer coordinate distance. -/
theorem fix1_heur_cast : ∀ v, v ∈ fix1vertsZ →
    distP (vdivZ 100 v) (1, 0) = wdivZ 100 (heurZx (100, 0) v) := by
  intro v hv
  simp only [fix1vertsZ, List.mem_cons, List.not_mem_nil, or_false] at hv
  have ht : ((1 : ℝ), (0 : ℝ)) = (((100 : ℤ) : ℝ) / 100, (0 : ℝ)) := by norm_num
  rcases hv with h | h | h | h <;> subst h <;>
    · rw [ht]
      exact distP_vdivZ_x (by norm_num) _ 100

/-- The fixture-1 vertex universe is closed under adjacency. -/
theorem fix1_closed : ∀ v, v ∈ fix1vertsZ → ∀ p ∈ succWeightsZ fix1Z v,
    p.1 ∈ fix1vertsZ := by decide

/-- The exact integer replay of the fixture-1 search at alpha = 0. -/
theorem fix1_run_int :
    astar_path (succWeightsZ fix1Z) (heurZx (100, 0)) ((0 : ℤ), (0 : ℤ))
        ((100 : ℤ), (0 : ℤ)) 37
      = .found [(0, 0), (90, 0), (100, 0)] := by decide

/-- The real fixture-1 search at alpha = 0 returns the risky two-hop path
over (0.9, 0). -/
theorem fix1_astar_run :
    astar_path (castGraph fix1Q).succWeights (fun v => distP v (1, 0))
        (0, 0) (1, 0) 37
      = .found [(0, 0), (0.9, 0), (1, 0)] := by
  have h := astar_path_castG (vdivZ 100) (wdivZ 100)
    (fun a b => vdivZ_inj (by norm_num) a b)
    (fun a b => wdivZ_lt_iff (by norm_num) a b)
    (fun a b => wdivZ_inj (by norm_num) a b)
    (fun a b => wdivZ_le_iff (by norm_num) a b)
    (wdivZ_add 100) (wdivZ_zero 100)
    (succWeightsZ fix1Z) (heurZx (100, 0))
    (castGraph fix1Q).succWeights (fun v => distP v (1, 0))
    ((0 : ℤ), (0 : ℤ)) ((100 : ℤ), (0 : ℤ)) (fun v => v ∈ fix1vertsZ)
    fix1_adj_cast fix1_closed fix1_heur_cast (by decide) 37
  have hv1 : vdivZ 100 ((0 : ℤ), (0 : ℤ)) = ((0 : ℝ), (0 : ℝ)) := by
    unfold vdivZ
    norm_num
  have hv2 : vdivZ 100 ((100 : ℤ), (0 : ℤ)) = ((1 : ℝ), (0 : ℝ)) := by
    unfold vdivZ
    norm_num
  rw [hv1, hv2, fix1_run_int] at h
  rw [h]
  simp only [mapResultG, List.map]
  norm_num [vdivZ, Prod.ext_iff]

/-- Fixture-2 adjacency: the built real graph's successor lists are the
scaled casts of the integer mirror's. -/
theorem fix2_adj_cast : ∀ v, v ∈ fix2vertsZ →
    (castGraph fix2Q).succWeights (vdivZ 800000 v)
      = (succWeightsZ fix2Z v).map
          (fun p => (vdivZ 800000 p.1, wdivZ 800000 p.2)) := by
  intro v hv
  simp only [fix2vertsZ, List.mem_cons, List.not_mem_nil, or_false] at hv
  rcases hv with h | h | h | h | h | h | h | h | h | h | h <;> subst h <;>
    norm_num [castGraph, castEdge, Graph.succWeights, succWeightsZ, fix2Q, fix2Z,
      vmapQ, vdivZ, wdivZ, List.filterMap, Prod.ext_iff]

/-- Fixture-2 heuristic: planar distance to the target is the scaled cast
of the integer coordinate distance. -/
theorem fix2_heur_cast : ∀ v, v ∈ fix2vertsZ →
    distP (vdivZ 800000 v) (0, 0) = wdivZ 800000 (heurZx (0, 0) v) := by
  intro v hv
  simp only [fix2vertsZ, List.mem_cons, List.not_mem_nil, or_false] at hv
  have ht : ((0 : ℝ), (0 : ℝ)) = (((0 : ℤ) : ℝ) / 800000, (0 : ℝ)) := by norm_num
  rcases hv with h | h | h | h | h | h | h | h | h | h | h <;> subst h <;>
    · rw [ht]
      exact distP_vdivZ_x (by norm_num) _ 0

/-- The fixture-2 vertex universe is closed under adjacency. -/
theorem fix2_closed : ∀ v, v ∈ fix2vertsZ → ∀ p ∈ succWeightsZ fix2Z v,
    p.1 ∈ fix2vertsZ := by decide

/-- The exact integer replay of the fixture-2 search at alpha = 1. -/
theorem fix2_run_int :
    astar_path (succWeightsZ fix2Z) (heurZx (0, 0)) ((4800 : ℤ), (0 : ℤ))
        ((0 : ℤ), (0 : ℤ)) 170
      = .found [(4800, 0), (1992, 0), (0, 0)] := by decide

/-- The real fixture-2 search at alpha = 1 returns the positive-eta
two-hop path over (0.00249, 0). -/
theorem fix2_astar_run :
    astar_path (castGraph fix2Q).succWeights (fun v => distP v (0, 0))
        (0.006, 0) (0, 0) 170
      = .found [(0.006, 0), (0.00249, 0), (0, 0)] := by
  have h := astar_path_castG (vdivZ 800000) (wdivZ 800000)
    (fun a b => vdivZ_inj (by norm_num) a b)
    (fun a b => wdivZ_lt_iff (by norm_num) a b)
    (fun a b => wdivZ_inj (by norm_num) a b)
    (fun a b => wdivZ_le_iff (by norm_num) a b)
    (wdivZ_add 800000) (wdivZ_zero 800000)
    (succWeightsZ fix2Z) (heurZx (0, 0))
    (castGraph fix2Q).succWeights (fun v => distP v (0, 0))
    ((4800 : ℤ), (0 : ℤ)) ((0 : ℤ), (0 : ℤ)) (fun v => v ∈ fix2vertsZ)
    fix2_adj_cast fix2_closed fix2_heur_cast (by decide) 170
  have hv1 : vdivZ 800000 ((4800 : ℤ), (0 : ℤ)) = ((0.006 : ℝ), (0 : ℝ)) := by
    unfold vdivZ
    norm_num
  have hv2 : vdivZ 800000 ((0 : ℤ), (0 : ℤ)) = ((0 : ℝ), (0 : ℝ)) := by
    unfold vdivZ
    norm_num
  rw [hv1, hv2, fix2_run_int] at h
  rw [h]
  simp only [mapResultG, List.map]
  norm_num [vdivZ, Prod.ext_iff]

/-- Inserting an edge on a slot no existing edge occupies appends it. -/
theorem insertEdge_fresh : ∀ (es : List Edge) (e : Edge),
    (∀ x ∈ es, edgeKeyNe x e) → insertEdge es e = es ++ [e] := by
  intro es
  induction es with
  | nil => intro e _; rfl
  | cons a rest ih =>
      intro e hall
      show insertEdge (a :: rest) e = _
      unfold insertEdge
      rw [if_neg (hall a (List.mem_cons_self _ _)),
        ih e (fun x hx => hall x (List.mem_cons_of_mem _ hx))]
      rfl

/-- When the generated edges all address distinct slots, the build fold is
a plain append of the per-segment edges. -/
theorem foldl_insert_all_new (f : String × Segment → Edge) :
    ∀ (l : List (String × Segment)) (es : List Edge),
      (∀ p ∈ l, ∀ x ∈ es, edgeKeyNe x (f p)) →
      l.Pairwise (fun p q => edgeKeyNe (f p) (f q)) →
      l.foldl (fun acc p => insertEdge acc (f p)) es = es ++ l.map f := by
  intro l
  induction l with
  | nil => intro es _ _; simp
  | cons p rest ih =>
      intro es hfresh hpw
      rcases List.pairwise_cons.mp hpw with ⟨hhead, htail⟩
      have hfr : ∀ q ∈ rest, ∀ x ∈ es ++ [f p], edgeKeyNe x (f q) := by
        intro q hq x hx
        rcases List.mem_append.mp hx with h1 | h1
        · exact hfresh q (List.mem_cons_of_mem _ hq) x h1
        · rw [List.mem_singleton.mp h1]
          exact hhead q hq
      simp only [List.foldl_cons]
      rw [insertEdge_fresh es (f p) (hfresh p (List.mem_cons_self _ _)),
        ih (es ++ [f p]) hfr htail]
      simp

/-- Evaluate compute_eta at the default speed through an exact rational. -/
theorem compute_eta_eval (d : ℝ) (q r : ℚ) (hd : d = (q : ℝ))
    (hq : round2Q (q / 30 * 60) = r) :
    compute_eta d DEFAULT_SPEED_KMPH = ((r : ℚ) : ℝ) := by
  unfold compute_eta DEFAULT_SPEED_KMPH
  exact round2R_at (q / 30 * 60) r hq _ _ (by rw [hd]; push_cast; ring) rfl

/-- A (crime 0, lighting 0, crowd 1) segment scores 0.15 before 20:00. -/
theorem risk_001_gen (i : String) (a b : ℝ × ℝ) :
    calculate_risk_value defaultRiskConfig ⟨i, a, b, 0, 0, 1⟩ 10 = 0.15 := by
  have h := calculate_risk_eval defaultRiskConfig ⟨i, a, b, 0, 0, 1⟩ 10
    (by omega) 0 1 0
    (by
      show nonlinear defaultRiskConfig (0 : ℝ) = 0
      exact nonlinear_zero _ (by norm_num [defaultRiskConfig]))
    (by
      show nonlinear defaultRiskConfig (1 - (0 : ℝ)) = 1
      rw [sub_zero]
      exact nonlinear_one _)
    (by
      show nonlinear defaultRiskConfig (1 - (1 : ℝ)) = 0
      rw [sub_self]
      exact nonlinear_zero _ (by norm_num [defaultRiskConfig]))
  rw [h]
  exact round2R_at 0.15 0.15
    (by rw [round2Q_eval 0.15 15 (by norm_num) (by norm_num)]; norm_num) _ _
    (by norm_num [defaultRiskConfig]) (by norm_num)

/-- A (crime 1, lighting 0, crowd 0) segment scores 0.9 before 20:00. -/
theorem risk_100_gen (i : String) (a b : ℝ × ℝ) :
    calculate_risk_value defaultRiskConfig ⟨i, a, b, 1, 0, 0⟩ 10 = 0.9 := by
  have h := calculate_risk_eval defaultRiskConfig ⟨i, a, b, 1, 0, 0⟩ 10
    (by omega) 1 1 1
    (by
      show nonlinear defaultRiskConfig (1 : ℝ) = 1
      exact nonlinear_one _)
    (by
      show nonlinear defaultRiskConfig (1 - (0 : ℝ)) = 1
      rw [sub_zero]
      exact nonlinear_one _)
    (by
      show nonlinear defaultRiskConfig (1 - (0 : ℝ)) = 1
      rw [sub_zero]
      exact nonlinear_one _)
  rw [h]
  exact round2R_at 0.9 0.9
    (by rw [round2Q_eval 0.9 90 (by norm_num) (by norm_num)]; norm_num) _ _
    (by norm_num [defaultRiskConfig]) (by norm_num)

/-- A (crime 0, lighting 1, crowd 1) segment scores 0 before 20:00. -/
theorem risk_011_gen (i : String) (a b : ℝ × ℝ) :
    calculate_risk_value defaultRiskConfig ⟨i, a, b, 0, 1, 1⟩ 10 = 0 := by
  have h := calculate_risk_eval defaultRiskConfig ⟨i, a, b, 0, 1, 1⟩ 10
    (by omega) 0 0 0
    (by
      show nonlinear defaultRiskConfig (0 : ℝ) = 0
      exact nonlinear_zero _ (by norm_num [defaultRiskConfig]))
    (by
      show nonlinear defaultRiskConfig (1 - (1 : ℝ)) = 0
      rw [sub_self]
      exact nonlinear_zero _ (by norm_num [defaultRiskConfig]))
    (by
      show nonlinear defaultRiskConfig (1 - (1 : ℝ)) = 0
      rw [sub_self]
      exact nonlinear_zero _ (by norm_num [defaultRiskConfig]))
  rw [h, show defaultRiskConfig.crime_weight * 0 + defaultRiskConfig.lighting_weight * 0
    + defaultRiskConfig.crowd_weight * 0 = (0 : ℝ) by ring, round2R_zero]

/-- A (crime 1, lighting 1, crowd 1) segment scores 0.6 before 20:00 under
the default config. -/
theorem risk_111_default (i : String) (a b : ℝ × ℝ) :
    calculate_risk_value defaultRiskConfig ⟨i, a, b, 1, 1, 1⟩ 10 = 0.6 := by
  rw [risk_111_gen defaultRiskConfig (by norm_num [defaultRiskConfig]) i a b]
  exact round2R_at 0.6 0.6
    (by rw [round2Q_eval 0.6 60 (by norm_num) (by norm_num)]; norm_num) _ _
    (by norm_num [defaultRiskConfig]) (by norm_num)

/-- A per-segment built edge equals the cast of its rational mirror once
each attribute evaluates to the mirrored exact value. -/
theorem segEdge_eq_castEdge (st : ServerState) (hour : ℕ) (alpha : ℝ)
    (sid : String) (seg : Segment) (e : EdgeQ)
    (hsrc : seg.start = vmapQ e.src) (hdst : seg.stop = vmapQ e.dst)
    (heta : compute_eta ((alookup st.distances sid).getD 0) DEFAULT_SPEED_KMPH
      = ((e.eta : ℚ) : ℝ))
    (hrisk : calculate_risk_value st.risk_config seg hour = ((e.risk : ℚ) : ℝ))
    (hw : alpha * ((e.eta : ℚ) : ℝ) + (1 - alpha) * ((e.risk : ℚ) : ℝ)
      = ((e.weight : ℚ) : ℝ))
    (hid : sid = e.segment_id) :
    segEdge st hour alpha (sid, seg) = castEdge e := by
  unfold segEdge castEdge
  dsimp only
  rw [hsrc, hdst, heta, hrisk, hw, hid]

/-- Each fixture-1 built edge is the cast of its rational mirror. -/
theorem fix1_edges_eval :
    fix1Segments.map (segEdge fix1State 10 0) = fix1Q.map castEdge := by
  simp only [fix1Segments, fix1Q, List.map_cons, List.map_nil, List.cons.injEq,
    and_true]
  refine ⟨?_, ?_, ?_, ?_⟩
  · exact segEdge_eq_castEdge fix1State 10 0 "u1" _ _
      (by norm_num [vmapQ, Prod.ext_iff])
      (by norm_num [vmapQ, Prod.ext_iff])
      (compute_eta_eval _ 5 10
        (by
          rw [show (alookup fix1State.distances "u1").getD 0 = (5 : ℝ) from by
            simp [fix1State, alookup, String.reduceEq]]
          norm_num)
        (by rw [round2Q_eval (5 / 30 * 60 : ℚ) 1000 (by norm_num) (by norm_num)]
            norm_num))
      (by rw [show fix1State.risk_config = defaultRiskConfig from rfl,
            risk_001_gen "u1" (0, 0) (-5, 0)]
          norm_num)
      (by norm_num)
      rfl
  · exact segEdge_eq_castEdge fix1State 10 0 "u2" _ _
      (by norm_num [vmapQ, Prod.ext_iff])
      (by norm_num [vmapQ, Prod.ext_iff])
      (compute_eta_eval _ 6 12
        (by
          rw [show (alookup fix1State.distances "u2").getD 0 = (6 : ℝ) from by
            simp [fix1State, alookup, String.reduceEq]]
          norm_num)
        (by rw [round2Q_eval (6 / 30 * 60 : ℚ) 1200 (by norm_num) (by norm_num)]
            norm_num))
      (by rw [show fix1State.risk_config = defaultRiskConfig from rfl,
            risk_001_gen "u2" (-5, 0) (1, 0)]
          norm_num)
      (by norm_num)
      rfl
  · exact segEdge_eq_castEdge fix1State 10 0 "u3" _ _
      (by norm_num [vmapQ, Prod.ext_iff])
      (by norm_num [vmapQ, Prod.ext_iff])
      (compute_eta_eval _ 0.9 1.8
        (by
          rw [show (alookup fix1State.distances "u3").getD 0 = (0.9 : ℝ) from by
            simp [fix1State, alookup, String.reduceEq]]
          norm_num)
        (by rw [round2Q_eval (0.9 / 30 * 60 : ℚ) 180 (by norm_num) (by norm_num)]
            norm_num))
      (by rw [show fix1State.risk_config = defaultRiskConfig from rfl,
            risk_100_gen "u3" (0, 0) (0.9, 0)]
          norm_num)
      (by norm_num)
      rfl
  · exact segEdge_eq_castEdge fix1State 10 0 "u4" _ _
      (by norm_num [vmapQ, Prod.ext_iff])
      (by norm_num [vmapQ, Prod.ext_iff])
      (compute_eta_eval _ 0.1 0.2
        (by
          rw [show (alookup fix1State.distances "u4").getD 0 = (0.1 : ℝ) from by
            simp [fix1State, alookup, String.reduceEq]]
          norm_num)
        (by rw [round2Q_eval (0.1 / 30 * 60 : ℚ) 20 (by norm_num) (by norm_num)]
            norm_num))
      (by rw [show fix1State.risk_config = defaultRiskConfig from rfl,
            risk_011_gen "u4" (0.9, 0) (1, 0)]
          norm_num)
      (by norm_num)
      rfl

/-- Each fixture-2 built edge is the cast of its rational mirror. -/
theorem fix2_edges_eval :
    fix2Segments.map (segEdge fix2State 10 1) = fix2Q.map castEdge := by
  simp only [fix2Segments, fix2Q, List.map_cons, List.map_nil, List.cons.injEq,
    and_true]
  refine ⟨?_, ?_, ?_, ?_, ?_, ?_, ?_, ?_, ?_, ?_, ?_⟩
  · exact segEdge_eq_castEdge fix2State 10 1 "t1" _ _
      (by norm_num [vmapQ, Prod.ext_iff])
      (by norm_num [vmapQ, Prod.ext_iff])
      (compute_eta_eval _ 0.00225 0
        (by
          rw [show (alookup fix2State.distances "t1").getD 0 = (0.00225 : ℝ) from by
            simp [fix2State, alookup, String.reduceEq]]
          norm_num)
        (by rw [round2Q_eval (0.00225 / 30 * 60 : ℚ) 0 (by norm_num) (by norm_num)]
            norm_num))
      (by rw [show fix2State.risk_config = defaultRiskConfig from rfl,
            risk_111_default "t1" (0.006, 0) (0.00825, 0)]
          norm_num)
      (by norm_num)
      rfl
  · exact segEdge_eq_castEdge fix2State 10 1 "t2" _ _
      (by norm_num [vmapQ, Prod.ext_iff])
      (by norm_num [vmapQ, Prod.ext_iff])
      (compute_eta_eval _ 0.00225 0
        (by
          rw [show (alookup fix2State.distances "t2").getD 0 = (0.00225 : ℝ) from by
            simp [fix2State, alookup, String.reduceEq]]
          norm_num)
        (by rw [round2Q_eval (0.00225 / 30 * 60 : ℚ) 0 (by norm_num) (by norm_num)]
            norm_num))
      (by rw [show fix2State.risk_config = defaultRiskConfig from rfl,
            risk_111_default "t2" (0.00825, 0) (0.0105, 0)]
          norm_num)
      (by norm_num)
      rfl
  · exact segEdge_eq_castEdge fix2State 10 1 "t3" _ _
      (by norm_num [vmapQ, Prod.ext_iff])
      (by norm_num [vmapQ, Prod.ext_iff])
      (compute_eta_eval _ 0.00225 0
        (by
          rw [show (alookup fix2State.distances "t3").getD 0 = (0.00225 : ℝ) from by
            simp [fix2State, alookup, String.reduceEq]]
          norm_num)
        (by rw [round2Q_eval (0.00225 / 30 * 60 : ℚ) 0 (by norm_num) (by norm_num)]
            norm_num))
      (by rw [show fix2State.risk_config = defaultRiskConfig from rfl,
            risk_111_default "t3" (0.0105, 0) (0.01275, 0)]
          norm_num)
      (by norm_num)
      rfl
  · exact segEdge_eq_castEdge fix2State 10 1 "t4" _ _
      (by norm_num [vmapQ, Prod.ext_iff])
      (by norm_num [vmapQ, Prod.ext_iff])
      (compute_eta_eval _ 0.002125 0
        (by
          rw [show (alookup fix2State.distances "t4").getD 0 = (0.002125 : ℝ) from by
            simp [fix2State, alookup, String.reduceEq]]
          norm_num)
        (by rw [round2Q_eval (0.002125 / 30 * 60 : ℚ) 0 (by norm_num) (by norm_num)]
            norm_num))
      (by rw [show fix2State.risk_config = defaultRiskConfig from rfl,
            risk_111_default "t4" (0.01275, 0) (0.010625, 0)]
          norm_num)
      (by norm_num)
      rfl
  · exact segEdge_eq_castEdge fix2State 10 1 "t5" _ _
      (by norm_num [vmapQ, Prod.ext_iff])
      (by norm_num [vmapQ, Prod.ext_iff])
      (compute_eta_eval _ 0.002125 0
        (by
          rw [show (alookup fix2State.distances "t5").getD 0 = (0.002125 : ℝ) from by
            simp [fix2State, alookup, String.reduceEq]]
          norm_num)
        (by rw [round2Q_eval (0.002125 / 30 * 60 : ℚ) 0 (by norm_num) (by norm_num)]
            norm_num))
      (by rw [show fix2State.risk_config = defaultRiskConfig from rfl,
            risk_111_default "t5" (0.010625, 0) (0.0085, 0)]
          norm_num)
      (by norm_num)
      rfl
  · exact segEdge_eq_castEdge fix2State 10 1 "t6" _ _
      (by norm_num [vmapQ, Prod.ext_iff])
      (by norm_num [vmapQ, Prod.ext_iff])
      (compute_eta_eval _ 0.002125 0
        (by
          rw [show (alookup fix2State.distances "t6").getD 0 = (0.002125 : ℝ) from by
            simp [fix2State, alookup, String.reduceEq]]
          norm_num)
        (by rw [round2Q_eval (0.002125 / 30 * 60 : ℚ) 0 (by norm_num) (by norm_num)]
            norm_num))
      (by rw [show fix2State.risk_config = defaultRiskConfig from rfl,
            risk_111_default "t6" (0.0085, 0) (0.006375, 0)]
          norm_num)
      (by norm_num)
      rfl
  · exact segEdge_eq_castEdge fix2State 10 1 "t7" _ _
      (by norm_num [vmapQ, Prod.ext_iff])
      (by norm_num [vmapQ, Prod.ext_iff])
      (compute_eta_eval _ 0.002125 0
        (by
          rw [show (alookup fix2State.distances "t7").getD 0 = (0.002125 : ℝ) from by
            simp [fix2State, alookup, String.reduceEq]]
          norm_num)
        (by rw [round2Q_eval (0.002125 / 30 * 60 : ℚ) 0 (by norm_num) (by norm_num)]
            norm_num))
      (by rw [show fix2State.risk_config = defaultRiskConfig from rfl,
            risk_111_default "t7" (0.006375, 0) (0.00425, 0)]
          norm_num)
      (by norm_num)
      rfl
  · exact segEdge_eq_castEdge fix2State 10 1 "t8" _ _
      (by norm_num [vmapQ, Prod.ext_iff])
      (by norm_num [vmapQ, Prod.ext_iff])
      (compute_eta_eval _ 0.002125 0
        (by
          rw [show (alookup fix2State.distances "t8").getD 0 = (0.002125 : ℝ) from by
            simp [fix2State, alookup, String.reduceEq]]
          norm_num)
        (by rw [round2Q_eval (0.002125 / 30 * 60 : ℚ) 0 (by norm_num) (by norm_num)]
            norm_num))
      (by rw [show fix2State.risk_config = defaultRiskConfig from rfl,
            risk_111_default "t8" (0.00425, 0) (0.002125, 0)]
          norm_num)
      (by norm_num)
      rfl
  · exact segEdge_eq_castEdge fix2State 10 1 "t9" _ _
      (by norm_num [vmapQ, Prod.ext_iff])
      (by norm_num [vmapQ, Prod.ext_iff])
      (compute_eta_eval _ 0.002125 0
        (by
          rw [show (alookup fix2State.distances "t9").getD 0 = (0.002125 : ℝ) from by
            simp [fix2State, alookup, String.reduceEq]]
          norm_num)
        (by rw [round2Q_eval (0.002125 / 30 * 60 : ℚ) 0 (by norm_num) (by norm_num)]
            norm_num))
      (by rw [show fix2State.risk_config = defaultRiskConfig from rfl,
            risk_111_default "t9" (0.002125, 0) (0, 0)]
          norm_num)
      (by norm_num)
      rfl
  · exact segEdge_eq_castEdge fix2State 10 1 "t10" _ _
      (by norm_num [vmapQ, Prod.ext_iff])
      (by norm_num [vmapQ, Prod.ext_iff])
      (compute_eta_eval _ 0.00351 0.01
        (by
          rw [show (alookup fix2State.distances "t10").getD 0 = (0.00351 : ℝ) from by
            simp [fix2State, alookup, String.reduceEq]]
          norm_num)
        (by rw [round2Q_eval (0.00351 / 30 * 60 : ℚ) 1 (by norm_num) (by norm_num)]
            norm_num))
      (by rw [show fix2State.risk_config = defaultRiskConfig from rfl,
            risk_011_gen "t10" (0.006, 0) (0.00249, 0)]
          norm_num)
      (by norm_num)
      rfl
  · exact segEdge_eq_castEdge fix2State 10 1 "t11" _ _
      (by norm_num [vmapQ, Prod.ext_iff])
      (by norm_num [vmapQ, Prod.ext_iff])
      (compute_eta_eval _ 0.00249 0
        (by
          rw [show (alookup fix2State.distances "t11").getD 0 = (0.00249 : ℝ) from by
            simp [fix2State, alookup, String.reduceEq]]
          norm_num)
        (by rw [round2Q_eval (0.00249 / 30 * 60 : ℚ) 0 (by norm_num) (by norm_num)]
            norm_num))
      (by rw [show fix2State.risk_config = defaultRiskConfig from rfl,
            risk_011_gen "t11" (0.00249, 0) (0, 0)]
          norm_num)
      (by norm_num)
      rfl

/-- The fixture-1 mirror edges address pairwise distinct slots. -/
theorem fix1Q_cast_pairwise : (fix1Q.map castEdge).Pairwise edgeKeyNe := by
  norm_num [fix1Q, castEdge, edgeKeyNe, vmapQ, List.pairwise_cons, Prod.ext_iff]

set_option maxHeartbeats 2000000 in
/-- The fixture-2 mirror edges address pairwise distinct slots. -/
theorem fix2Q_cast_pairwise : (fix2Q.map castEdge).Pairwise edgeKeyNe := by
  norm_num [fix2Q, castEdge, edgeKeyNe, vmapQ, List.pairwise_cons, Prod.ext_iff]

/-- Building from the fixture-1 store yields exactly the cast of the
rational mirror graph. -/
theorem fix1_build :
    ∃ st1, build_graph fix1State 10 0 = some (castGraph fix1Q, st1) := by
  have hpw : fix1Segments.Pairwise (fun p q => p.1 ≠ q.1) := by
    simp [fix1Segments, List.pairwise_cons]
  obtain ⟨st1, h1⟩ := build_graph_loop_spec 10 0 fix1Segments ⟨[]⟩ fix1State
    (fun p _ => rfl)
    (fun p hp => by
      simp only [fix1Segments, List.mem_cons, List.not_mem_nil, or_false] at hp
      rcases hp with h | h | h | h <;> subst h <;> rfl)
    (fun p hp => by
      simp only [fix1Segments, List.mem_cons, List.not_mem_nil, or_false] at hp
      rcases hp with h | h | h | h <;> subst h <;> rfl)
    hpw
  have hfold : fix1Segments.foldl
      (fun es p => insertEdge es (segEdge fix1State 10 0 p)) []
      = fix1Q.map castEdge := by
    rw [foldl_insert_all_new (segEdge fix1State 10 0) fix1Segments []
      (fun p _ x hx => absurd hx (List.not_mem_nil x))
      (List.pairwise_map.mp
        (by rw [fix1_edges_eval]; exact fix1Q_cast_pairwise))]
    rw [List.nil_append, fix1_edges_eval]
  rw [show (⟨[]⟩ : Graph).edges = ([] : List Edge) from rfl, hfold] at h1
  have h2 : build_graph_uncached fix1State 10 0
      = some (castGraph fix1Q, st1) := by
    unfold build_graph_uncached
    rw [show fix1State.segments = fix1Segments from rfl, h1]
    rfl
  refine ⟨{ st1 with
      graph_cache := lruTouch st1.graph_cache (10, 0, fix1State.dataset_ts) (castGraph fix1Q) 200 }, ?_⟩
  unfold build_graph
  rw [show fix1State.graph_cache = ([] : List ((ℕ × ℝ × ℕ) × Graph)) from rfl]
  simp only [alookup]
  rw [h2]

/-- Building from the fixture-2 store yields exactly the cast of the
rational mirror graph. -/
theorem fix2_build :
    ∃ st1, build_graph fix2State 10 1 = some (castGraph fix2Q, st1) := by
  have hpw : fix2Segments.Pairwise (fun p q => p.1 ≠ q.1) := by
    simp [fix2Segments, List.pairwise_cons]
  obtain ⟨st1, h1⟩ := build_graph_loop_spec 10 1 fix2Segments ⟨[]⟩ fix2State
    (fun p _ => rfl)
    (fun p hp => by
      simp only [fix2Segments, List.mem_cons, List.not_mem_nil, or_false] at hp
      rcases hp with h | h | h | h | h | h | h | h | h | h | h <;> subst h <;> rfl)
    (fun p hp => by
      simp only [fix2Segments, List.mem_cons, List.not_mem_nil, or_false] at hp
      rcases hp with h | h | h | h | h | h | h | h | h | h | h <;> subst h <;> rfl)
    hpw
  have hfold : fix2Segments.foldl
      (fun es p => insertEdge es (segEdge fix2State 10 1 p)) []
      = fix2Q.map castEdge := by
    rw [foldl_insert_all_new (segEdge fix2State 10 1) fix2Segments []
      (fun p _ x hx => absurd hx (List.not_mem_nil x))
      (List.pairwise_map.mp
        (by rw [fix2_edges_eval]; exact fix2Q_cast_pairwise))]
    rw [List.nil_append, fix2_edges_eval]
  rw [show (⟨[]⟩ : Graph).edges = ([] : List Edge) from rfl, hfold] at h1
  have h2 : build_graph_uncached fix2State 10 1
      = some (castGraph fix2Q, st1) := by
    unfold build_graph_uncached
    rw [show fix2State.segments = fix2Segments from rfl, h1]
    rfl
  refine ⟨{ st1 with
      graph_cache := lruTouch st1.graph_cache (10, 1, fix2State.dataset_ts) (castGraph fix2Q) 200 }, ?_⟩
  unfold build_graph
  rw [show fix2State.graph_cache = ([] : List ((ℕ × ℝ × ℕ) × Graph)) from rfl]
  simp only [alookup]
  rw [h2]

/-- Attribute totals of the fixture-1 path the alpha = 0 search picks. -/
theorem fix1_attrs_chosen :
    sumPathAttrs (castGraph fix1Q) [(0, 0), (0.9, 0), (1, 0)]
      = some (2, 0.9, [[(0, 0), (0.9, 0)], [(0.9, 0), (1, 0)]]) := by
  norm_num [sumPathAttrs, Graph.edgeBetween, castGraph, castEdge, fix1Q, vmapQ,
    List.find?, Prod.ext_iff]

/-- Attribute totals of the rival fixture-1 path over (-5, 0). -/
theorem fix1_attrs_alt :
    sumPathAttrs (castGraph fix1Q) [(0, 0), (-5, 0), (1, 0)]
      = some (22, 0.3, [[(0, 0), (-5, 0)], [(-5, 0), (1, 0)]]) := by
  norm_num [sumPathAttrs, Graph.edgeBetween, castGraph, castEdge, fix1Q, vmapQ,
    List.find?, Prod.ext_iff]

/-- Attribute totals of the fixture-2 path the alpha = 1 search picks. -/
theorem fix2_attrs_chosen :
    sumPathAttrs (castGraph fix2Q) [(0.006, 0), (0.00249, 0), (0, 0)]
      = some (0.01, 0, [[(0.006, 0), (0.00249, 0)], [(0.00249, 0), (0, 0)]]) := by
  norm_num [sumPathAttrs, Graph.edgeBetween, castGraph, castEdge, fix2Q, vmapQ,
    List.find?, Prod.ext_iff]

set_option maxHeartbeats 2000000 in
/-- Attribute totals of the rival zero-eta fixture-2 chain. -/
theorem fix2_attrs_chain :
    sumPathAttrs (castGraph fix2Q)
      [(0.006, 0), (0.00825, 0), (0.0105, 0), (0.01275, 0), (0.010625, 0), (0.0085, 0), (0.006375, 0), (0.00425, 0), (0.002125, 0), (0, 0)]
      = some (0, 5.4,
      [[(0.006, 0), (0.00825, 0)],
       [(0.00825, 0), (0.0105, 0)],
       [(0.0105, 0), (0.01275, 0)],
       [(0.01275, 0), (0.010625, 0)],
       [(0.010625, 0), (0.0085, 0)],
       [(0.0085, 0), (0.006375, 0)],
       [(0.006375, 0), (0.00425, 0)],
       [(0.00425, 0), (0.002125, 0)],
       [(0.002125, 0), (0, 0)]]) := by
  norm_num [sumPathAttrs, Graph.edgeBetween, castGraph, castEdge, fix2Q, vmapQ,
    List.find?, Prod.ext_iff]

/-- The model fuel budget of the fixture-1 graph. -/
theorem fix1_fuel : graphFuel (castGraph fix1Q) = 37 := by
  norm_num [graphFuel, castGraph, fix1Q]

/-- The model fuel budget of the fixture-2 graph. -/
theorem fix2_fuel : graphFuel (castGraph fix2Q) = 170 := by
  norm_num [graphFuel, castGraph, fix2Q]

/-- C3 counterexample: on fixtures that satisfy the claim's premise (a path
with strictly smaller total eta and a distinct path with strictly smaller
total risk exist), the chosen path fails to minimise.  Fixture 1, alpha = 0:
the search returns the (0,0)-(0.9,0)-(1,0) path of total risk 0.9 although
the distinct (0,0)-(-5,0)-(1,0) path has total risk 0.3 (the premise holds:
the chosen path itself has the strictly smaller total eta 2 < 22).
Fixture 2, alpha = 1: the search returns the two-hop path of total eta 0.01
although the zero-eta chain exists (premise: the chain has the smaller
total eta, the chosen path the smaller total risk 0 < 5.4).  The distance
heuristic overestimates the remaining cost in both cases, so A* is not
optimal for either objective. -/
theorem C3_counterexample :
    (∃ st1, build_graph fix1State 10 0 = some (castGraph fix1Q, st1)) ∧
    astar_path (castGraph fix1Q).succWeights (fun v => distP v (1, 0))
        (0, 0) (1, 0) (graphFuel (castGraph fix1Q))
      = .found [(0, 0), (0.9, 0), (1, 0)] ∧
    sumPathAttrs (castGraph fix1Q) [(0, 0), (0.9, 0), (1, 0)]
      = some (2, 0.9, [[(0, 0), (0.9, 0)], [(0.9, 0), (1, 0)]]) ∧
    sumPathAttrs (castGraph fix1Q) [(0, 0), (-5, 0), (1, 0)]
      = some (22, 0.3, [[(0, 0), (-5, 0)], [(-5, 0), (1, 0)]]) ∧
    ((2 : ℝ) < 22 ∧ (0.3 : ℝ) < 0.9) ∧
    (∃ st2, build_graph fix2State 10 1 = some (castGraph fix2Q, st2)) ∧
    astar_path (castGraph fix2Q).succWeights (fun v => distP v (0, 0))
        (0.006, 0) (0, 0) (graphFuel (castGraph fix2Q))
      = .found [(0.006, 0), (0.00249, 0), (0, 0)] ∧
    sumPathAttrs (castGraph fix2Q) [(0.006, 0), (0.00249, 0), (0, 0)]
      = some (0.01, 0, [[(0.006, 0), (0.00249, 0)], [(0.00249, 0), (0, 0)]]) ∧
    sumPathAttrs (castGraph fix2Q)
      [(0.006, 0), (0.00825, 0), (0.0105, 0), (0.01275, 0), (0.010625, 0), (0.0085, 0), (0.006375, 0), (0.00425, 0), (0.002125, 0), (0, 0)]
      = some (0, 5.4,
      [[(0.006, 0), (0.00825, 0)],
       [(0.00825, 0), (0.0105, 0)],
       [(0.0105, 0), (0.01275, 0)],
       [(0.01275, 0), (0.010625, 0)],
       [(0.010625, 0), (0.0085, 0)],
       [(0.0085, 0), (0.006375, 0)],
       [(0.006375, 0), (0.00425, 0)],
       [(0.00425, 0), (0.002125, 0)],
       [(0.002125, 0), (0, 0)]]) ∧
    ((0 : ℝ) < 0.01 ∧ (0 : ℝ) < 5.4) := by
  refine ⟨fix1_build, ?_, fix1_attrs_chosen, fix1_attrs_alt,
    ⟨by norm_num, by norm_num⟩, fix2_build, ?_, fix2_attrs_chosen,
    fix2_attrs_chain, ⟨by norm_num, by norm_num⟩⟩
  · rw [fix1_fuel]
    exact fix1_astar_run
  · rw [fix2_fuel]
    exact fix2_astar_run

/-- A successful association lookup is a membership. -/
theorem alookup_mem {α β : Type} [DecidableEq α] :
    ∀ (l : List (α × β)) (k : α) (v : β), alookup l k = some v → (k, v) ∈ l := by
  intro l
  induction l with
  | nil => intro k v h; simp [alookup] at h
  | cons p rest ih =>
      intro k v h
      obtain ⟨a, b⟩ := p
      by_cases hab : a = k
      · subst hab
        have h2 : b = v := by simpa [alookup] using h
        rw [← h2]
        exact List.mem_cons_self _ _
      · simp only [alookup, if_neg hab] at h
        exact List.mem_cons_of_mem _ (ih k v h)

/-- Everything in an updated association store was there or is the new
binding. -/
theorem mem_aupdate {α β : Type} [DecidableEq α] :
    ∀ (l : List (α × β)) (k : α) (v : β) (x : α × β),
      x ∈ aupdate l k v → x ∈ l ∨ x = (k, v) := by
  intro l
  induction l with
  | nil =>
      intro k v x h
      simp only [aupdate] at h
      exact Or.inr (List.mem_singleton.mp h)
  | cons p rest ih =>
      intro k v x h
      obtain ⟨a, b⟩ := p
      simp only [aupdate] at h
      by_cases hab : a = k
      · rw [if_pos hab] at h
        rcases List.mem_cons.mp h with h1 | h1
        · exact Or.inr h1
        · exact Or.inl (List.mem_cons_of_mem _ h1)
      · rw [if_neg hab] at h
        rcases List.mem_cons.mp h with h1 | h1
        · exact Or.inl (by rw [h1]; exact List.mem_cons_self _ _)
        · rcases ih k v x h1 with h2 | h2
          · exact Or.inl (List.mem_cons_of_mem _ h2)
          · exact Or.inr h2

/-- Everything astarPush leaves on the heap was already there or is a
pushed neighbor entry whose parent is the expanded vertex. -/
theorem astarPush_queue_sound {V K : Type} [DecidableEq V]
    [LinearOrderedCommRing K] (heur : V → K) (cur : V) (curDist : K) :
    ∀ (nbrs : List (V × K)) (q : List (AEntry V K)) (c : ℕ)
      (enq : List (V × (K × K))) (x : AEntry V K),
      x ∈ (astarPush heur cur curDist nbrs (q, c, enq)).1 →
      x ∈ q ∨ ∃ p ∈ nbrs, x.node = p.1 ∧ x.parent = some cur := by
  intro nbrs
  induction nbrs with
  | nil =>
      intro q c enq x hx
      exact Or.inl (by simpa [astarPush] using hx)
  | cons nw rest ih =>
      intro q c enq x hx
      obtain ⟨nbr, w⟩ := nw
      simp only [astarPush] at hx
      split at hx
      · split at hx
        · rcases ih q c enq x hx with h1 | ⟨p, hp, hn⟩
          · exact Or.inl h1
          · exact Or.inr ⟨p, List.mem_cons_of_mem _ hp, hn⟩
        · rcases ih _ _ _ x hx with h1 | ⟨p, hp, hn⟩
          · rcases List.mem_append.mp h1 with h2 | h2
            · exact Or.inl h2
            · refine Or.inr ⟨(nbr, w), List.mem_cons_self _ _, ?_⟩
              simp at h2
              rw [h2]
              exact ⟨rfl, rfl⟩
          · exact Or.inr ⟨p, List.mem_cons_of_mem _ hp, hn⟩
      · rcases ih _ _ _ x hx with h1 | ⟨p, hp, hn⟩
        · rcases List.mem_append.mp h1 with h2 | h2
          · exact Or.inl h2
          · refine Or.inr ⟨(nbr, w), List.mem_cons_self _ _, ?_⟩
            simp at h2
            rw [h2]
            exact ⟨rfl, rfl⟩
        · exact Or.inr ⟨p, List.mem_cons_of_mem _ hp, hn⟩

/-- The reconstruction loop produces a parent-linked walk: it keeps the
accumulator's head, ends at the unique parentless vertex (the source), and
every consecutive pair of the reversed list is an adjacency. -/
theorem reconstructPath_sound {V K : Type} [DecidableEq V]
    (adj : V → List (V × K)) (source : V) :
    ∀ (fuel : ℕ) (exp : List (V × Option V)) (po : Option V)
      (acc res : List V),
      reconstructPath fuel exp po acc = some res →
      (∀ v pv, (v, pv) ∈ exp →
        (pv = none → v = source) ∧
        (∀ u, pv = some u → ∃ w, (v, w) ∈ adj u)) →
      acc ≠ [] →
      acc.reverse.Chain' (fun a b => ∃ w, (b, w) ∈ adj a) →
      (∀ u a, po = some u → acc.getLast? = some a → ∃ w, (a, w) ∈ adj u) →
      (po = none → acc.getLast? = some source) →
      res.head? = acc.head? ∧ res.getLast? = some source ∧
        res.reverse.Chain' (fun a b => ∃ w, (b, w) ∈ adj a) := by
  intro fuel
  induction fuel with
  | zero =>
      intro exp po acc res hrun hexp hacc hchain hlink hnone
      cases po with
      | none =>
          have hres : acc = res := by
            simpa [reconstructPath] using hrun
          subst hres
          exact ⟨rfl, hnone rfl, hchain⟩
      | some u => simp [reconstructPath] at hrun
  | succ n ih =>
      intro exp po acc res hrun hexp hacc hchain hlink hnone
      cases po with
      | none =>
          have hres : acc = res := by
            simpa [reconstructPath] using hrun
          subst hres
          exact ⟨rfl, hnone rfl, hchain⟩
      | some u =>
          simp only [reconstructPath] at hrun
          cases hx : alookup exp u with
          | none =>
              rw [hx] at hrun
              exact Option.noConfusion hrun
          | some p =>
              rw [hx] at hrun
              have hmem := alookup_mem exp u p hx
              obtain ⟨a0, ha0⟩ := Option.isSome_iff_exists.mp
                (List.getLast?_isSome.mpr hacc)
              have hchain2 : (acc ++ [u]).reverse.Chain'
                  (fun a b => ∃ w, (b, w) ∈ adj a) := by
                rw [List.reverse_append, List.reverse_singleton,
                  List.singleton_append]
                refine List.chain'_cons'.mpr ⟨?_, hchain⟩
                intro b hb
                rw [List.head?_reverse] at hb
                have hba : b = a0 := by
                  rw [ha0] at hb
                  exact (Option.mem_some_iff.mp hb).symm
                rw [hba]
                exact hlink u a0 rfl ha0
              have hres := ih exp p (acc ++ [u]) res hrun hexp
                (by simp)
                hchain2
                (by
                  intro u2 a2 hp2 hgl2
                  rw [List.getLast?_concat] at hgl2
                  have ha2 : a2 = u := (Option.some.inj hgl2).symm
                  rw [ha2]
                  exact (hexp u p hmem).2 u2 hp2)
                (by
                  intro hp2
                  rw [List.getLast?_concat]
                  rw [(hexp u p hmem).1 hp2])
              obtain ⟨hh, hl, hc⟩ := hres
              refine ⟨?_, hl, hc⟩
              rw [hh]
              cases acc with
              | nil => exact absurd rfl hacc
              | cons a as => rfl

/-- Any found path of the search loop is a genuine source-to-target walk
along the adjacency function. -/
theorem astarLoop_sound {V K : Type} [DecidableEq V] [LinearOrderedCommRing K]
    (adj : V → List (V × K)) (heur : V → K) (source target : V) :
    ∀ (fuel : ℕ) (q : List (AEntry V K)) (c : ℕ)
      (enq : List (V × (K × K))) (exp : List (V × Option V)) (path : List V),
      (∀ e ∈ q, (e.parent = none → e.node = source) ∧
        (∀ u, e.parent = some u → ∃ w, (e.node, w) ∈ adj u)) →
      (∀ v pv, (v, pv) ∈ exp →
        (pv = none → v = source) ∧
        (∀ u, pv = some u → ∃ w, (v, w) ∈ adj u)) →
      astarLoop adj heur target fuel q c enq exp = .found path →
      path.head? = some source ∧ path.getLast? = some target ∧
        path.Chain' (fun a b => ∃ w, (b, w) ∈ adj a) := by
  intro fuel
  induction fuel with
  | zero =>
      intro q c enq exp path _ _ hrun
      simp [astarLoop] at hrun
  | succ n ih =>
      intro q c enq exp path hq hexp hrun
      simp only [astarLoop] at hrun
      cases hx : extractMin q with
      | none =>
          rw [hx] at hrun
          exact AStarResult.noConfusion hrun
      | some pr =>
          obtain ⟨e, rest⟩ := pr
          simp only [hx] at hrun
          obtain ⟨hemem, hrest⟩ := extractMin_mem q e rest hx
          have hqrest : ∀ x ∈ rest, (x.parent = none → x.node = source) ∧
              (∀ u, x.parent = some u → ∃ w, (x.node, w) ∈ adj u) :=
            fun x hxm => hq x (hrest x hxm)
          by_cases ht : e.node = target
          · rw [if_pos ht] at hrun
            cases hr : reconstructPath (exp.length + 1) exp e.parent [e.node] with
            | none =>
                rw [hr] at hrun
                exact AStarResult.noConfusion hrun
            | some p =>
                simp only [hr] at hrun
                have hpath : p.reverse = path := by
                  simpa using hrun
                obtain ⟨hh, hl, hc⟩ := reconstructPath_sound adj source
                  (exp.length + 1) exp e.parent [e.node] p hr hexp
                  (by simp)
                  (by simp)
                  (by
                    intro u a hp2 hgl
                    have ha : a = e.node := by
                      simpa using hgl.symm
                    rw [ha]
                    exact (hq e hemem).2 u hp2)
                  (by
                    intro hp2
                    simp only [List.getLast?_singleton, Option.some.injEq]
                    exact (hq e hemem).1 hp2)
                refine ⟨?_, ?_, ?_⟩
                · rw [← hpath, List.head?_reverse, hl]
                · rw [← hpath, List.getLast?_reverse, hh]
                  simpa using ht
                · rw [← hpath]
                  exact hc
          · rw [if_neg ht] at hrun
            have hexpand : astarLoop adj heur target n
                (astarPush heur e.node e.dist (adj e.node) (rest, c, enq)).1
                (astarPush heur e.node e.dist (adj e.node) (rest, c, enq)).2.1
                (astarPush heur e.node e.dist (adj e.node) (rest, c, enq)).2.2
                (aupdate exp e.node e.parent) = .found path →
                path.head? = some source ∧ path.getLast? = some target ∧
                  path.Chain' (fun a b => ∃ w, (b, w) ∈ adj a) := by
              intro hrun2
              refine ih _ _ _ (aupdate exp e.node e.parent) path ?_ ?_ hrun2
              · intro x hxm
                rcases astarPush_queue_sound heur e.node e.dist (adj e.node)
                    rest c enq x hxm with h1 | ⟨p, hp, hn, hpar⟩
                · exact hqrest x h1
                · constructor
                  · intro hnone
                    rw [hpar] at hnone
                    exact Option.noConfusion hnone
                  · intro u hu
                    rw [hpar] at hu
                    have huu : e.node = u := Option.some.inj hu
                    refine ⟨p.2, ?_⟩
                    rw [hn, ← huu]
                    simpa using hp
              · intro v pv hv
                rcases mem_aupdate exp e.node e.parent (v, pv) hv with h1 | h1
                · exact hexp v pv h1
                · rw [Prod.mk.injEq] at h1
                  obtain ⟨hv1, hv2⟩ := h1
                  rw [hv1, hv2]
                  exact hq e hemem
            cases he2 : alookup exp e.node with
            | none =>
                simp only [he2] at hrun
                exact hexpand hrun
            | some pr2 =>
                cases pr2 with
                | none =>
                    simp only [he2] at hrun
                    exact ih rest c enq exp path hqrest hexp hrun
                | some u =>
                    simp only [he2] at hrun
                    cases he3 : alookup enq e.node with
                    | none =>
                        rw [he3] at hrun
                        exact AStarResult.noConfusion hrun
                    | some pr3 =>
                        obtain ⟨qcost, hh3⟩ := pr3
                        simp only [he3] at hrun
                        by_cases hcc : qcost < e.dist
                        · rw [if_pos hcc] at hrun
                          exact ih rest c enq exp path hqrest hexp hrun
                        · rw [if_neg hcc] at hrun
                          exact hexpand hrun

/-- Any found path of astar_path starts at the source, ends at the target
and follows the adjacency function edge by edge. -/
theorem astar_path_sound {V K : Type} [DecidableEq V] [LinearOrderedCommRing K]
    (adj : V → List (V × K)) (heur : V → K) (source target : V) (fuel : ℕ)
    (path : List V)
    (h : astar_path adj heur source target fuel = .found path) :
    path.head? = some source ∧ path.getLast? = some target ∧
      path.Chain' (fun a b => ∃ w, (b, w) ∈ adj a) := by
  unfold astar_path at h
  exact astarLoop_sound adj heur source target fuel _ _ _ _ path
    (fun e he => by
      rw [List.mem_singleton.mp he]
      exact ⟨fun _ => rfl, fun u hu => Option.noConfusion hu⟩)
    (fun v pv hv => absurd hv (List.not_mem_nil _))
    h

/-- C3 (amended): the search is a best-effort optimiser, not a guaranteed
one.  What does hold: at alpha = 1 every built edge's search weight is
exactly its eta and at alpha = 0 exactly its risk, and any path the search
returns is a genuine walk: it starts at the source, ends at the target and
follows graph adjacency edge by edge.  Minimality of the corresponding
total is not guaranteed, because the planar-distance heuristic can
overestimate the remaining weighted cost (see the counterexample on both
fixtures). -/
theorem C3_search_best_effort :
    (∀ st hour p, (segEdge st hour 1 p).weight = (segEdge st hour 1 p).eta) ∧
    (∀ st hour p, (segEdge st hour 0 p).weight = (segEdge st hour 0 p).risk) ∧
    (∀ {V K : Type} [DecidableEq V] [LinearOrderedCommRing K]
      (adj : V → List (V × K)) (heur : V → K) (source target : V)
      (fuel : ℕ) (path : List V),
      astar_path adj heur source target fuel = .found path →
      path.head? = some source ∧ path.getLast? = some target ∧
        path.Chain' (fun a b => ∃ w, (b, w) ∈ adj a)) := by
  refine ⟨?_, ?_, ?_⟩
  · intro st hour p
    simp only [segEdge]
    ring
  · intro st hour p
    simp only [segEdge]
    ring
  · intro V K _ _ adj heur source target fuel path h
    exact astar_path_sound adj heur source target fuel path h

/-- Witness: the amended soundness applied to the concrete integer replay
of the fixture-1 search, whose hypothesis is discharged by computation, and
the weight-collapse parts applied to the one-segment store. -/
theorem C3_witness :
    ((segEdge engineState0 10 1 ("s0", seg0)).weight
      = (segEdge engineState0 10 1 ("s0", seg0)).eta) ∧
    ((segEdge engineState0 10 0 ("s0", seg0)).weight
      = (segEdge engineState0 10 0 ("s0", seg0)).risk) ∧
    ([((0 : ℤ), (0 : ℤ)), (90, 0), (100, 0)].head? = some ((0 : ℤ), (0 : ℤ)) ∧
     [((0 : ℤ), (0 : ℤ)), (90, 0), (100, 0)].getLast?
       = some ((100 : ℤ), (0 : ℤ)) ∧
     [((0 : ℤ), (0 : ℤ)), (90, 0), (100, 0)].Chain'
       (fun a b => ∃ w, (b, w) ∈ succWeightsZ fix1Z a)) :=
  ⟨C3_search_best_effort.1 engineState0 10 ("s0", seg0),
   C3_search_best_effort.2.1 engineState0 10 ("s0", seg0),
   C3_search_best_effort.2.2 (succWeightsZ fix1Z) (heurZx (100, 0))
     ((0 : ℤ), (0 : ℤ)) ((100 : ℤ), (0 : ℤ)) 37
     [((0 : ℤ), (0 : ℤ)), (90, 0), (100, 0)] (by decide)⟩

end SafeRoute
